import Mathlib

/-!
Verification of the SODG dataization engine (reo).

The dataization engine (`src/universe.rs`) is embedded shallowly below.
The engine delegates graph storage to the external `sodg` crate, which is
not part of this repository's sources; the store operations are therefore
modelled from the specification (each such definition is marked
`Modelled from the spec:`).  Everything else is translated from the Rust
sources.  Rust `Result` errors are modelled as `Res.err` (carrying the
anyhow context chain, outermost context first), Rust panics (`unwrap` on a
failed result, index out of bounds, arithmetic aborts) as `Res.panic`, and
general recursion is made total with an explicit fuel argument, where
`Res.fuel` marks fuel exhaustion (a modelling artifact: a computation that
yields `Res.fuel` for every fuel value does not terminate in the source).
-/

/-- Outcome of a Rust computation: success, an error result with its
context chain, a panic (process abort), or fuel exhaustion. -/
inductive Res (α : Type) where
  | ok : α → Res α
  | err : List String → Res α
  | panic : String → Res α
  | fuel : Res α
deriving Repr, DecidableEq

/-- Sequencing of fallible computations (`?` in the Rust source). -/
def Res.bind {α β : Type} : Res α → (α → Res β) → Res β
  | .ok a, f => f a
  | .err e, _ => .err e
  | .panic m, _ => .panic m
  | .fuel, _ => .fuel

/-- anyhow's `.context(msg)`: wraps an error result with one more context
line; successes, panics and fuel exhaustion pass through unchanged. -/
def Res.ctx {α : Type} (m : String) : Res α → Res α
  | .err e => .err (m :: e)
  | r => r

/-- The computation produced an error result (not a success, not a panic). -/
def Res.isErr {α : Type} : Res α → Bool
  | .err _ => true
  | _ => false

/-- The computation succeeded. -/
def Res.isOk {α : Type} : Res α → Bool
  | .ok _ => true
  | _ => false

/-- Extract the success value, with a default. -/
def Res.okD {α : Type} (r : Res α) (d : α) : α :=
  match r with
  | .ok a => a
  | _ => d

/-- A datum: an immutable finite byte sequence (each entry < 256). -/
abbrev Bytes := List Nat

/- Structural edge labels (string literals of the source). -/

def lDelta : String := "Δ"
def lLambda : String := "λ"
def lPi : String := "π"
def lPhi : String := "φ"
def lGamma : String := "γ"
def lRho : String := "ρ"
def lSigma : String := "σ"
/-- The mathematical-italic sigma `𝜎` used by the early store
(`i_bind.rs`), a different code point than `σ`. -/
def lSigmaIt : String := "𝜎"
def lPsi : String := "ψ"
def lXi : String := "ξ"
def lEps : String := "ε"
def lBeta : String := "β"
def lAlpha : String := "α"
def lPhiBig : String := "Φ"
def lDollar : String := "$"

/-- Render a vertex id the way the source does (`ν{v}`). -/
def mkNu (v : Nat) : String := "ν" ++ toString v

/-- The digit-sequence part of `u32`/`usize` `from_str` (kernel-reducible
replacement for `String.toNat?`). -/
def toNatQ (s : String) : Option Nat :=
  let ds := s.toList
  if !ds.isEmpty && ds.all (fun c => decide ('0' ≤ c) && decide (c ≤ '9')) then
    some (ds.foldl (fun acc c => acc * 10 + (c.toNat - 48)) 0)
  else none

/-- `str::starts_with` (kernel-reducible). -/
def strStarts (s p : String) : Bool := p.toList.isPrefixOf s.toList

/--
Modelled from the spec: the `sodg` crate's graph container (spec §4.1),
which is outside this repository's `src/`.  Vertices are identified by
monotonically allocated ids; each vertex carries an optional datum; edges
are labelled and at most one outgoing edge exists per (source, label).
Lists keep insertion order, which the spec requires to be deterministic.
-/
structure Sodg where
  next : Nat
  verts : List Nat
  edges : List (Nat × String × Nat)
  datas : List (Nat × Bytes)
deriving Repr, DecidableEq

/-- Modelled from the spec: vertex membership test. -/
def Sodg.hasV (g : Sodg) (v : Nat) : Bool := g.verts.contains v

/-- Modelled from the spec: `kid(v, a)` returns the target of the edge
labelled `a` leaving `v`, or absent. -/
def Sodg.kid (g : Sodg) (v : Nat) (a : String) : Option Nat :=
  (g.edges.find? (fun e => e.1 == v && e.2.1 == a)).map (fun e => e.2.2)

/-- Modelled from the spec: the outgoing edges of `v` in insertion order
(pure projection). -/
def Sodg.kidsL (g : Sodg) (v : Nat) : List (String × Nat) :=
  (g.edges.filter (fun e => e.1 == v)).map (fun e => (e.2.1, e.2.2))

/-- Modelled from the spec: `kids(v)` fails when the vertex is absent. -/
def Sodg.kidsR (g : Sodg) (v : Nat) : Res (List (String × Nat)) :=
  if g.hasV v then .ok (g.kidsL v)
  else .err [String.append (String.append "Can\x27t find kids of " (mkNu v)) ", it is absent"]

/-- Modelled from the spec: `next_id` reports the next id to allocate;
ids are allocated monotonically and never reused. -/
def Sodg.nextId (g : Sodg) : Nat := g.next

/-- Number of outgoing `π`/`φ` edges of `v`: the quantity inspected by the
alert installed in `Universe::empty` (src/universe.rs, lines 40-54). -/
def piPhiCount (g : Sodg) (v : Nat) : Nat :=
  ((g.kidsL v).filter (fun p => p.1 == lPi || p.1 == lPhi)).length

/-- The alert closure installed by `Universe::empty` (src/universe.rs):
for each changed vertex, report an error when it has both `π` and `φ`. -/
def alertPiPhi (g : Sodg) (vx : List Nat) : List String :=
  vx.filterMap (fun v =>
    if 1 < piPhiCount g v then
      some (String.append (mkNu v) " can\x27t have both π and φ")
    else none)

/-- Modelled from the spec: `add(v)` fails with `DuplicateVertex` when `v`
already exists; otherwise registers the vertex and keeps allocation
monotone.  Alerts run after the mutation; a failing alert fails the
mutation, which then does not take effect. -/
def Sodg.addG (g : Sodg) (v : Nat) : Res Sodg :=
  if g.hasV v then .err [String.append (mkNu v) " already exists"]
  else
    let g' : Sodg := { g with verts := g.verts ++ [v], next := max g.next (v + 1) }
    if (alertPiPhi g' [v]).isEmpty then .ok g' else .err (alertPiPhi g' [v])

/-- Modelled from the spec: `bind(v1, v2, a)` fails with `MissingVertex`
when an endpoint is absent and with `DuplicateEdge` when `(v1, a)` already
binds; the store never synthesises reciprocal back-edges.  Alerts run on
the changed vertices after the mutation; a failing alert fails the
mutation, which then does not take effect (`Sodg.bindG` below). -/
def Sodg.rawBind (g : Sodg) (v1 v2 : Nat) (a : String) : Sodg :=
  { g with edges := g.edges ++ [(v1, a, v2)], next := max g.next (max v1 v2 + 1) }

def Sodg.bindG (g : Sodg) (v1 v2 : Nat) (a : String) : Res Sodg :=
  if !(g.hasV v1) then .err [String.append "Can\x27t depart from " (mkNu v1)]
  else if !(g.hasV v2) then .err [String.append "Can\x27t arrive at " (mkNu v2)]
  else if (g.kid v1 a).isSome then
    .err [String.append (String.append "Edge \x27" a) (String.append "\x27 already exists in " (mkNu v1))]
  else
    let g' : Sodg := g.rawBind v1 v2 a
    if (alertPiPhi g' [v1, v2]).isEmpty then .ok g' else .err (alertPiPhi g' [v1, v2])
-- (spec §4.1 store contract as documented above)

/-- Modelled from the spec: `put(v, bytes)` replaces any existing datum. -/
def Sodg.putG (g : Sodg) (v : Nat) (d : Bytes) : Res Sodg :=
  if g.hasV v then
    .ok { g with datas := g.datas.filter (fun p => !(p.1 == v)) ++ [(v, d)] }
  else .err [String.append "Can\x27t put data to absent " (mkNu v)]

/-- Modelled from the spec: `data(v)` fails when the vertex is absent or
carries no datum. -/
def Sodg.dataR (g : Sodg) (v : Nat) : Res Bytes :=
  if g.hasV v then
    match (g.datas.find? (fun p => p.1 == v)).map (fun p => p.2) with
    | some d => .ok d
    | none => .err [String.append "No data in " (mkNu v)]
  else .err [String.append "Can\x27t get data from absent " (mkNu v)]

/-- Modelled from the spec: the graph is empty when it has no vertices. -/
def Sodg.isEmptyG (g : Sodg) : Bool := g.verts.isEmpty

/--
The engine state (src/universe.rs, spec §4.4.3): the graph, the atom map
and the recursion depth.  The source keeps atoms as a map from name to a
native function pointer; here the state records the registered names and
the behaviour of registered atoms is a parameter of the evaluation
functions (`AtomOracle`), so the engine itself stays first-order.  The
snapshot directory (`snapshots: None` outside the debug tracer, which the
spec puts out of scope) is omitted; `enter_it`/`exit_it` then reduce to
their depth updates, with `snapshot` a no-op.
-/
structure Universe where
  g : Sodg
  atoms : List String
  depth : Nat
deriving Repr, DecidableEq

/-- Behaviour of the registered atoms: name, engine state and vertex to a
result.  Only consulted for names present in `Universe.atoms`. -/
abbrev AtomOracle := String → Universe → Nat → Res (Universe × Nat)

/-- `enter_it` (src/universe.rs): bump the recursion depth (the snapshot
call is a no-op without a snapshot directory). -/
def enterIt (u : Universe) : Universe := { u with depth := u.depth + 1 }

/-- `exit_it` (src/universe.rs): decrement the recursion depth when it is
positive (`Nat` subtraction matches the guarded decrement). -/
def exitIt (u : Universe) : Universe := { u with depth := u.depth - 1 }

/-- `Universe::nil` (src/universe.rs): a vertex is a nil when its only
outgoing edge is `ρ`. -/
def nilR (g : Sodg) (v : Nat) : Res Bool :=
  Res.bind (g.kidsR v) (fun ks =>
    .ok (ks.length == 1 && ks.all (fun p => p.1 == lRho)))

/-- `str::is_ascii`: every character below code point 128. -/
def isAsciiStr (s : String) : Bool := s.toList.all (fun c => c.toNat < 128)

/-- `Universe::tie` (src/universe.rs): translate the label of a pushed
edge.  `ρ`/`σ` pass through; `Δ` passes when the target has no datum edge
yet; an existing nil slot keeps the label; `α<n>` resolves to the `n`-th
ascii-labelled attribute; anything else is a tie conflict.  The `.nth(i)
.unwrap()` of the source panics when the index is out of range.  The
recursion of the `α` case is bounded by fuel. -/
def tie : Nat → Sodg → Nat → String → Res String
  | 0, _, _, _ => .fuel
  | f + 1, g, v, a =>
    if a == lRho || a == lSigma then .ok a
    else if a == lDelta && (g.kid v a).isNone then .ok a
    else
      let alphaTail : Res String :=
        if strStarts a lAlpha then
          match toNatQ (a.drop 1) with
          | none => .err [String.append "invalid index in " a]
          | some i =>
            Res.bind (g.kidsR v) (fun ks =>
              match (ks.filter (fun p => isAsciiStr p.1)).get? i with
              | none => .panic "called Option::unwrap on a None value"
              | some p => tie f g v p.1)
        else .err [String.append (String.append "Can\x27t tie to " (mkNu v)) (String.append "." a)]
      match g.kid v a with
      | some v1 => Res.bind (nilR g v1) (fun b => if b then .ok a else alphaTail)
      | none => alphaTail

/-- `Universe::up` (src/universe.rs): link a pulled edge.  `λ`/`Δ`/`ρ`
edges and edges to nils are copied verbatim; any other edge gets a fresh
trampoline vertex `t` with `v1 -a-> t`, `t -ρ-> v1`, `t -ψ-> v1`,
`t -π-> v2`. -/
def up (u : Universe) (v1 v2 : Nat) (a : String) : Res Universe :=
  if a == lLambda || a == lDelta || a == lRho then
    Res.bind (u.g.bindG v1 v2 a) (fun g' => .ok { u with g := g' })
  else
    Res.bind (nilR u.g v2) (fun b =>
      if b then
        Res.bind (u.g.bindG v1 v2 a) (fun g' => .ok { u with g := g' })
      else
        let nv := u.g.nextId
        Res.bind (u.g.addG nv) (fun g1 =>
        Res.bind (g1.bindG v1 nv a) (fun g2 =>
        Res.bind (g2.bindG nv v1 lRho) (fun g3 =>
        Res.bind (g3.bindG nv v1 lPsi) (fun g4 =>
        Res.bind (g4.bindG nv v2 lPi) (fun g5 => .ok { u with g := g5 }))))))

/-- `Universe::pull` iteration (src/universe.rs): `σ`, `β`, `π` edges are
skipped, the rest are linked with `up`.  The source iterates a snapshot of
`kids(v2)`, which is the list argument here. -/
def pullList (u : Universe) (v1 : Nat) : List (String × Nat) → Res Universe
  | [] => .ok u
  | (a, k) :: rest =>
    if a == lSigma || a == lBeta || a == lPi then pullList u v1 rest
    else Res.bind (up u v1 k a) (fun u' => pullList u' v1 rest)

/-- `Universe::pull` (src/universe.rs). -/
def pull (u : Universe) (v1 v2 : Nat) : Res Universe :=
  Res.bind (u.g.kidsR v2) (fun ks => pullList u v1 ks)

/-- `Universe::down` (src/universe.rs): bind a pushed edge under the
translated label. -/
def down (f : Nat) (u : Universe) (v1 v2 : Nat) (a : String) : Res Universe :=
  Res.bind (tie f u.g v1 a) (fun a1 =>
  Res.bind (u.g.bindG v1 v2 a1) (fun g' => .ok { u with g := g' }))

/-- `Universe::push` iteration (src/universe.rs): `π` and `ψ` edges are
skipped, the rest are linked with `down`. -/
def pushList (f : Nat) (u : Universe) (v1 : Nat) : List (String × Nat) → Res Universe
  | [] => .ok u
  | (a, k) :: rest =>
    if a == lPi || a == lPsi then pushList f u v1 rest
    else Res.bind (down f u v1 k a) (fun u' => pushList f u' v1 rest)

/-- `Universe::push` (src/universe.rs). -/
def push (f : Nat) (u : Universe) (v1 v2 : Nat) : Res Universe :=
  Res.bind (u.g.kidsR v2) (fun ks => pushList f u v1 ks)

/-- `Universe::apply` (src/universe.rs): allocate a fresh vertex, pull the
structure of `v1` into it, push the non-`π`/`ψ` fields of `v2` onto it.
The function both enters the depth tracker and increments `depth` once
more (line 270), so a successful apply leaves the depth one higher. -/
def applyV (f : Nat) (u : Universe) (v1 v2 : Nat) : Res (Universe × Nat) :=
  let u0 := enterIt u
  let u1 : Universe := { u0 with depth := u0.depth + 1 }
  let nv := u1.g.nextId
  Res.bind (u1.g.addG nv) (fun gA =>
  Res.bind (pull { u1 with g := gA } nv v1) (fun u2 =>
  Res.bind (push f u2 nv v2) (fun u3 => .ok (exitIt u3, nv))))

/-- `Hex::to_utf8` of the atom-name datum.  The model decodes ASCII bytes
only (all atom names of the repository are ASCII); other byte sequences
are reported as a decoding error. -/
def toUtf8 (bs : Bytes) : Res String :=
  if bs.all (fun b => b < 128) then .ok (String.mk (bs.map (fun b => Char.ofNat b)))
  else .err ["invalid utf-8 sequence"]

mutual

/-- `Universe::fnd` (src/universe.rs): dynamic dispatch with `dd`, then
path-find with `pf`, inside the depth tracker. -/
def fnd (ru : AtomOracle) : Nat → Universe → Nat → String → Nat → Res (Universe × Nat)
  | 0, _, _, _, _ => .fuel
  | f + 1, u, v, a, psi =>
    let u0 := enterIt u
    Res.bind (dd ru f u0 v psi) (fun p =>
    Res.bind (pf ru f p.1 p.2 a psi) (fun q => .ok (exitIt q.1, q.2)))
termination_by structural f => f

/-- `Universe::pf` (src/universe.rs): direct edge, else `λ` atom call,
else `φ` fall-through, else `γ` fall-through with memoisation, else an
unresolved-attribute error.  An atom name missing from the registry hits
the source's `.context(..).unwrap()` and panics. -/
def pf (ru : AtomOracle) : Nat → Universe → Nat → String → Nat → Res (Universe × Nat)
  | 0, _, _, _, _ => .fuel
  | f + 1, u, v, a, psi =>
    let u0 := enterIt u
    match u0.g.kid v a with
    | some tgt => .ok (exitIt u0, tgt)
    | none =>
      match u0.g.kid v lLambda with
      | some lv =>
        Res.bind (u0.g.dataR lv) (fun bs =>
        Res.bind (toUtf8 bs) (fun lam =>
          if u0.atoms.contains lam then
            Res.bind (ru lam u0 v) (fun p =>
            Res.bind (fnd ru f p.1 p.2 a psi) (fun q => .ok (exitIt q.1, q.2)))
          else
            .panic (String.append (String.append "Can\x27t find function " lam)
              (String.append (String.append " among " (toString u0.atoms.length)) " others"))))
      | none =>
        match u0.g.kid v lPhi with
        | some tgt =>
          Res.bind (fnd ru f u0 tgt a psi) (fun q => .ok (exitIt q.1, q.2))
        | none =>
          match u0.g.kid v lGamma with
          | some tgt =>
            Res.bind (fnd ru f u0 tgt a psi) (fun q =>
            Res.bind (q.1.g.bindG v q.2 a) (fun g2 =>
              .ok (exitIt { q.1 with g := g2 }, q.2)))
          | none =>
            .err [String.append (String.append "There is no way to get ." a)
              (String.append " from " (mkNu v))]
termination_by structural f => f

/-- `Universe::dd` (src/universe.rs): dynamic dispatch.  A `ψ` edge
replaces the dispatch context; `ε` is followed; `ξ` jumps to the context;
`β` resolves its single attribute; `π` applies the copy to its exemplar;
otherwise the vertex itself is the answer. -/
def dd (ru : AtomOracle) : Nat → Universe → Nat → Nat → Res (Universe × Nat)
  | 0, _, _, _ => .fuel
  | f + 1, u, v, psi =>
    let u0 := enterIt u
    let psi2 := match u0.g.kid v lPsi with
      | some p => p
      | none => psi
    match u0.g.kid v lEps with
    | some tgt =>
      Res.bind (dd ru f u0 tgt psi2) (fun q => .ok (exitIt q.1, q.2))
    | none =>
      if (u0.g.kid v lXi).isSome then
        Res.bind (dd ru f u0 psi2 psi2) (fun q => .ok (exitIt q.1, q.2))
      else
        match u0.g.kid v lBeta with
        | some beta =>
          Res.bind (u0.g.kidsR beta) (fun ks =>
            match ks.head? with
            | none => .err [String.append "Can\x27t find " (mkNu beta)]
            | some ak =>
              Res.bind (fnd ru f u0 ak.2 ak.1 psi2) (fun p =>
              Res.bind (dd ru f p.1 p.2 psi2) (fun q => .ok (exitIt q.1, q.2))))
        | none =>
          match u0.g.kid v lPi with
          | some tgt =>
            Res.bind (dd ru f u0 tgt psi2) (fun p =>
            Res.bind (applyV f p.1 p.2 v) (fun q => .ok (exitIt q.1, q.2)))
          | none => .ok (exitIt u0, v)
termination_by structural f => f

end

/-- A locator token: a direct vertex jump `ν<n>` or an attribute /
structural-label step.  The source splits a string locator on `.`; the
embedding works on the token list directly. -/
inductive Tok where
  | nu : Nat → Tok
  | attr : String → Tok
deriving Repr, DecidableEq

/-- Render a token the way the source renders locator items. -/
def tokStr : Tok → String
  | .nu n => mkNu n
  | .attr a => a

/-- Render a locator for error messages. -/
def locStr (ts : List Tok) : String := String.intercalate "." (ts.map tokStr)

/-- `Universe::mut_re` (src/universe.rs): the relay invoked by the store
when a direct lookup fails.  `Φ` rewrites to the root jump `ν0`; any other
label is resolved with `fnd` (context `ψ = 0`), and the result is a direct
jump to the found vertex. -/
def mutRe (ru : AtomOracle) (fF : Nat) (u : Universe) (v : Nat) (a : String) : Res (Universe × Nat) :=
  if a == lPhiBig then .ok (u, 0) else fnd ru fF u v a 0

/--
Modelled from the spec: the graph container's `find` (spec §4.4.1), which
lives in the `sodg` crate.  It walks the locator token by token: `ν<n>`
jumps to vertex `n`, `ξ` (or `$`) is an identity step, any other token
follows the direct edge when present and otherwise asks the engine's
relay, which rewrites the step to a direct jump (`mut_re` always answers
with `ν<id>`), after which resolution continues.  The fuel `fF` bounds
each relay excursion.
-/
def sfind (ru : AtomOracle) (fF : Nat) : Universe → Nat → List Tok → Res (Universe × Nat)
  | u, v, [] => .ok (u, v)
  | u, _, .nu n :: ts => sfind ru fF u n ts
  | u, v, .attr a :: ts =>
    if a == lXi || a == lDollar then sfind ru fF u v ts
    else
      match u.g.kid v a with
      | some tgt => sfind ru fF u tgt ts
      | none => Res.bind (mutRe ru fF u v a) (fun p => sfind ru fF p.1 p.2 ts)

/-- `Universe::find` (src/universe.rs): fails on the empty graph, then
resolves the locator from the root through the store's `find` with the
engine as relay. -/
def findU (ru : AtomOracle) (fF : Nat) (u : Universe) (loc : List Tok) : Res (Universe × Nat) :=
  if u.g.isEmptyG then
    .err [String.append (String.append "The Universe is empty, can\x27t dataize " (locStr loc)) ""]
  else
    Res.ctx (String.append "Failed to find " (locStr loc)) (sfind ru fF u 0 loc)

/-- `Universe::dataize` (src/universe.rs): append `.Δ` to the locator,
resolve it with `find`, and read the datum of the resolved vertex. -/
def dataizeU (ru : AtomOracle) (fF : Nat) (u : Universe) (loc : List Tok) : Res (Universe × Bytes) :=
  Res.bind (Res.ctx (String.append "Can\x27t find " (locStr loc))
      (findU ru fF u (loc ++ [Tok.attr lDelta]))) (fun p =>
  Res.bind (Res.ctx (String.append "There is no data in " (mkNu p.2)) (p.1.g.dataR p.2)) (fun d =>
    .ok (p.1, d)))


/--
A vertex record of the early in-repo store (the `Universe` of
`src/universe/`): an optional datum, whether a `λ` callable is attached,
the recorded atom name and the search locator of `S/` atoms
(src/universe/i_atom.rs).  The struct definition itself (`universe/mod.rs`)
is absent from `src/`; its fields are reconstructed from their uses.
-/
structure EVertex where
  vdata : Option Bytes
  hasLambda : Bool
  lambdaName : String
  search : String
deriving Repr, DecidableEq

/-- An edge record of the early store (src/universe/i_bind.rs): source,
target and label. -/
structure EEdge where
  src : Nat
  dst : Nat
  lab : String
deriving Repr, DecidableEq

/--
The early in-repo store: vertices and edges keyed by ids from one shared
monotonic allocator.  The definitions of the struct and of `next_id` are
absent from `src/`; `Modelled from the spec:` ids are allocated
monotonically and never reused, so `enext` tracks the next free id and
every insertion keeps it above all used ids.
-/
structure EUni where
  enext : Nat
  vertices : List (Nat × EVertex)
  eedges : List (Nat × EEdge)
deriving Repr, DecidableEq

/-- The empty early store. -/
def EUni.empty : EUni := { enext := 0, vertices := [], eedges := [] }

/-- Modelled from the spec: `next_id` of the early store reports the next
free id (pure read; insertions keep the counter monotone). -/
def EUni.nextIdE (u : EUni) : Nat := u.enext

/-- Vertex lookup of the early store. -/
def EUni.vtx (u : EUni) (v : Nat) : Option EVertex :=
  (u.vertices.find? (fun p => p.1 == v)).map (fun p => p.2)

/-- `Universe::edge` (src/universe/dataize.rs): the target of the first
`k`-labelled edge departing from `v`. -/
def EUni.edgeL (u : EUni) (v : Nat) (k : String) : Option Nat :=
  (u.eedges.find? (fun p => p.2.src == v && p.2.lab == k)).map (fun p => p.2.dst)

/-- `Vertex::empty` of the early store (reconstructed from uses). -/
def EVertex.emptyV : EVertex :=
  { vdata := none, hasLambda := false, lambdaName := "", search := "" }

/-- `Universe::add` of the early store (src/universe/i_add.rs): fails when
the vertex already exists. -/
def EUni.addE (u : EUni) (v : Nat) : Res EUni :=
  if (u.vertices.find? (fun p => p.1 == v)).isSome then
    .err [String.append (String.append "Vertex " (mkNu v)) " already exists"]
  else
    .ok { u with vertices := u.vertices ++ [(v, EVertex.emptyV)],
                 enext := max u.enext (v + 1) }

/--
`Universe::bind` of the early store (src/universe/i_bind.rs): checks both
endpoints, the edge id and the (source, label) slot, inserts the edge,
and — when the label is neither `ρ` nor `𝜎` — synthesises the reciprocal
`ρ` and `𝜎` back-edges from `v2` to `v1` when `v2` does not have them yet.
The recursion of the two synthesised binds is bounded by fuel (they use
labels `ρ`/`𝜎` and therefore do not recurse further).
-/
def EUni.bindE : Nat → EUni → Nat → Nat → Nat → String → Res EUni
  | 0, _, _, _, _, _ => .fuel
  | f + 1, u, e1, v1, v2, a =>
    if (u.vtx v1).isNone then .err [String.append "Can\x27t find " (mkNu v1)]
    else if (u.vtx v2).isNone then .err [String.append "Can\x27t find " (mkNu v2)]
    else if (u.eedges.find? (fun p => p.1 == e1)).isSome then
      .err [String.append (String.append "Edge ε" (toString e1)) " already exists"]
    else
      match u.edgeL v1 a with
      | some v =>
        .err [String.append (String.append (String.append "Edge \x27" a)
          (String.append "\x27 already exists in " (mkNu v1)))
          (String.append ", arriving to " (mkNu v))]
      | none =>
        let u1 : EUni := { u with eedges := u.eedges ++ [(e1, ⟨v1, v2, a⟩)],
                                  enext := max u.enext (e1 + 1) }
        if a == lRho || a == lSigmaIt then .ok u1
        else
          Res.bind
            (if (u1.edgeL v2 lRho).isNone then
              EUni.bindE f u1 u1.nextIdE v2 v1 lRho
            else .ok u1) (fun u2 =>
          (if (u2.edgeL v2 lSigmaIt).isNone then
            EUni.bindE f u2 u2.nextIdE v2 v1 lSigmaIt
          else .ok u2))

/-- The datum setter of the early store (`uni.data(v, d)` as used by
src/gmi.rs; its definition file is absent from `src/`).  Modelled from the
spec: `put(v, bytes)` replaces any existing datum and fails when the
vertex is absent. -/
def EUni.dataE (u : EUni) (v : Nat) (d : Bytes) : Res EUni :=
  match u.vtx v with
  | none => .err [String.append "Can\x27t find " (mkNu v)]
  | some vtx =>
    .ok { u with vertices :=
      u.vertices.map (fun p => if p.1 == v then (p.1, { vtx with vdata := some d }) else p) }

/-- `Universe::atom` of the early store (src/universe/i_atom.rs): attaches
a `λ` to the vertex.  For an `S/`-prefixed name the search locator is
recorded; otherwise the registered callable (or the `not_implemented_yet`
fallback) is attached.  Either way the vertex ends with a `λ` and the
recorded name. -/
def EUni.atomE (u : EUni) (v : Nat) (m : String) : Res EUni :=
  match u.vtx v with
  | none => .err [String.append "Can\x27t find " (mkNu v)]
  | some vtx =>
    let vtx' : EVertex :=
      if strStarts m "S/" then
        { vtx with hasLambda := true, search := m.drop 2, lambdaName := m }
      else
        { vtx with hasLambda := true, lambdaName := m }
    .ok { u with vertices :=
      u.vertices.map (fun p => if p.1 == v then (p.1, vtx') else p) }

/-- `Universe::copy` of the early store (src/universe/i_copy.rs): replace
edge `e1` (from `v1` to `v2`) by `e2` from `v1` to the new vertex `v3`,
retarget all edges departing from `v2` to depart from `v3`, add a `π` edge
from `v3` to `v2`, strip the datum from `v2` and the `λ` from `v3`.  The
allocator for the fresh `π` edge id (`next_e`, absent from `src/`) is the
shared monotonic allocator. -/
def EUni.copyE (u : EUni) (e1 v3 e2 : Nat) : Res EUni :=
  match (u.eedges.find? (fun p => p.1 == e1)).map (fun p => p.2) with
  | none => .err [String.append "Can\x27t find ε" (toString e1)]
  | some ed =>
    let v1 := ed.src
    let v2 := ed.dst
    match u.vtx v2 with
    | none => .err [String.append "Can\x27t find " (mkNu v2)]
    | some vtx2 =>
      let edges1 := (u.eedges.filter (fun p => !(p.1 == e1))) ++ [(e2, ⟨v1, v3, ed.lab⟩)]
      let edges2 := edges1.map (fun p =>
        if p.2.src == v2 then (p.1, { p.2 with src := v3 }) else p)
      let e3 := max u.enext (max (e2 + 1) (v3 + 1))
      let edges3 := edges2 ++ [(e3, ⟨v3, v2, lPi⟩)]
      let vtx2' : EVertex := { vtx2 with vdata := none }
      let vtx3' : EVertex := { vtx2 with hasLambda := false, lambdaName := "" }
      let vs1 := u.vertices.map (fun p => if p.1 == v2 then (p.1, vtx2') else p)
      let vs2 := if (vs1.find? (fun p => p.1 == v3)).isSome then
          vs1.map (fun p => if p.1 == v3 then (p.1, vtx3') else p)
        else vs1 ++ [(v3, vtx3')]
      .ok { enext := e3 + 1, vertices := vs2, eedges := edges3 }

/-- `Universe::lost_edges` (src/universe/inconsistencies.rs). -/
def lostEdges (u : EUni) : List String :=
  u.eedges.flatMap (fun p =>
    (if (u.vtx p.2.dst).isNone then
      [String.append (String.append (String.append "Edge ε" (toString p.1))
        " arrives to lost ") (mkNu p.2.dst)]
    else []) ++
    (if (u.vtx p.2.src).isNone then
      [String.append (String.append (String.append "Edge ε" (toString p.1))
        " departs from lost ") (mkNu p.2.src)]
    else []))

/-- `Universe::exclusive_trio` (src/universe/inconsistencies.rs): `π`,
`φ` and `λ` are mutually exclusive; in particular a vertex must not have
both `π` and `φ`. -/
def exclusiveTrio (u : EUni) : List String :=
  u.vertices.flatMap (fun p =>
    let attrs := (u.eedges.filter (fun q =>
      q.2.src == p.1 && (q.2.lab == lPi || q.2.lab == lPhi))).length
    if p.2.hasLambda && 0 < attrs then
      [String.append (mkNu p.1) " already has λ, can\x27t have π or φ"]
    else if 1 < attrs then
      [String.append (mkNu p.1) " can\x27t have both π and φ"]
    else [])

/-- `Universe::inconsistencies` (src/universe/inconsistencies.rs): a
validation pass run on demand (used by tests), not by the mutators. -/
def inconsistenciesE (u : EUni) : List String :=
  lostEdges u ++ exclusiveTrio u

/- The GMI script assembler (src/gmi.rs).  The `LINE`/`ARGS` regular
expressions are implemented as a recursive-descent matcher accepting the
same lines: an uppercase operation name, ` *`, `(`, ` *`, a sequence of
quoted arguments each optionally preceded by ` *, *`, ` *`, `)`, ` *`,
`;`, ` *`, and an optional `#` comment; the arguments are the quoted
chunks in order, quotes (either kind) excluded, as the `ARGS` regex
extracts them. -/

/-- An ASCII space (the ` ` of the regexes, not general whitespace). -/
def dropSpacesC (l : List Char) : List Char := l.dropWhile (fun c => c == ' ')

/-- `[A-Z]`. -/
def isUpperC (c : Char) : Bool := decide ('A' ≤ c) && decide (c ≤ 'Z')

/-- `'|"` — a single or double quote. -/
def isQuoteC (c : Char) : Bool := c == Char.ofNat 39 || c == Char.ofNat 34

/-- One quoted argument: a quote, one or more non-quote characters, a
quote (the two quotes need not match, as in the regex). -/
def parseQuoted : List Char → Option (String × List Char)
  | [] => none
  | c :: rest =>
    if isQuoteC c then
      let content := rest.takeWhile (fun d => !(isQuoteC d))
      match rest.dropWhile (fun d => !(isQuoteC d)) with
      | _ :: rest3 => if content.isEmpty then none else some (String.mk content, rest3)
      | [] => none
    else none

/-- One `(?: *, *)?(quoted)` step. -/
def parseSepQuoted (l : List Char) : Option (String × List Char) :=
  match dropSpacesC l with
  | c :: rest => if c == ',' then parseQuoted (dropSpacesC rest) else parseQuoted l
  | [] => none

/-- The `(...)*` of the argument list (fuel-bounded; each step consumes at
least one character). -/
def parseArgsLoop : Nat → List Char → List String → List String × List Char
  | 0, l, acc => (acc.reverse, l)
  | f + 1, l, acc =>
    match parseSepQuoted l with
    | some p => parseArgsLoop f p.2 (p.1 :: acc)
    | none => (acc.reverse, l)

/-- The `LINE` regex of `Gmi::deploy_one` (src/gmi.rs) together with the
`ARGS` extraction: operation name and quoted arguments, or no match. -/
def parseGmiLine (line : String) : Option (String × List String) :=
  let l := line.toList
  let op := l.takeWhile isUpperC
  let l1 := l.dropWhile isUpperC
  if op.isEmpty then none
  else
    match dropSpacesC l1 with
    | '(' :: l3 =>
      let l4 := dropSpacesC l3
      match parseArgsLoop (l4.length + 1) l4 [] with
      | (args, l5) =>
        match dropSpacesC l5 with
        | ')' :: l7 =>
          match dropSpacesC l7 with
          | ';' :: l9 =>
            (match dropSpacesC l9 with
             | [] => some (String.mk op, args)
             | c4 :: _ => if c4 == '#' then some (String.mk op, args) else none)
          | _ => none
        | _ => none
    | _ => none

/-- `[0-9A-Fa-f]`. -/
def isHexC (c : Char) : Bool :=
  (decide ('0' ≤ c) && decide (c ≤ '9')) ||
  (decide ('A' ≤ c) && decide (c ≤ 'F')) ||
  (decide ('a' ≤ c) && decide (c ≤ 'f'))

/-- Value of a hex digit. -/
def hexV (c : Char) : Nat :=
  if decide ('0' ≤ c) && decide (c ≤ '9') then c.toNat - 48
  else if decide ('A' ≤ c) && decide (c ≤ 'F') then c.toNat - 55
  else c.toNat - 87

/-- Decode an even-length string of hex digits into bytes. -/
def hexPairs : List Char → Bytes
  | c1 :: c2 :: rest => (hexV c1 * 16 + hexV c2) :: hexPairs rest
  | _ => []

/-- UTF-8 encoding of one code point. -/
def utf8Enc (c : Nat) : Bytes :=
  if c < 128 then [c]
  else if c < 2048 then [192 + c / 64, 128 + c % 64]
  else if c < 65536 then [224 + c / 4096, 128 + c / 64 % 64, 128 + c % 64]
  else [240 + c / 262144, 128 + c / 4096 % 64, 128 + c / 64 % 64, 128 + c % 64]

/-- UTF-8 bytes of a string (`String::as_bytes`). -/
def utf8Str (s : String) : Bytes := s.toList.flatMap (fun c => utf8Enc c.toNat)

/-- `i64::from_str`: optional sign, digits, 64-bit range check. -/
def parseI64 (s : String) : Res Int :=
  let core : Bool → List Char → Res Int := fun neg ds =>
    if ds.isEmpty || !(ds.all (fun c => decide ('0' ≤ c) && decide (c ≤ '9'))) then
      .err [String.append "invalid digit found in string: " s]
    else
      let n : Nat := ds.foldl (fun acc c => acc * 10 + (c.toNat - 48)) 0
      let i : Int := if neg then -(n : Int) else (n : Int)
      if -(2 ^ 63) ≤ i ∧ i < 2 ^ 63 then .ok i
      else .err [String.append "number too large to fit in target type: " s]
  match s.toList with
  | '-' :: ds => core true ds
  | '+' :: ds => core false ds
  | ds => core false ds

/-- `i64::to_be_bytes` of the two's-complement value. -/
def i64Be (i : Int) : Bytes :=
  let n : Nat := (i % (2 ^ 64)).toNat
  [n / 2 ^ 56 % 256, n / 2 ^ 48 % 256, n / 2 ^ 40 % 256, n / 2 ^ 32 % 256,
   n / 2 ^ 24 % 256, n / 2 ^ 16 % 256, n / 2 ^ 8 % 256, n % 256]

/-- `Data::from_hex` (src/data.rs): strips `-` and decodes hex with an
`unwrap`, hence a panic on a malformed literal. -/
def dataFromHex (s : String) : Res Bytes :=
  let d := s.toList.filter (fun c => !(c == '-'))
  if d.all isHexC && d.length % 2 == 0 then .ok (hexPairs d)
  else .panic "called Result::unwrap on an Err value: InvalidHexCharacter"

/-- `Gmi::parse_data` (src/gmi.rs): strip whitespace and `-`; a pure hex
literal becomes bytes; otherwise `type/value` with types `bytes`,
`string`, `int`, `float`, `bool`, `array`.  IEEE-754 `float` literals are
outside this model (no claim exercises them); they are reported as a
model-boundary error. -/
def parseData (s : String) : Res Bytes :=
  let d := s.toList.filter (fun c =>
    !(c == ' ' || c == Char.ofNat 9 || c == Char.ofNat 10 || c == Char.ofNat 13 || c == '-'))
  if !d.isEmpty && d.all isHexC && d.length % 2 == 0 then .ok (hexPairs d)
  else
    let t := d.takeWhile (fun c => !(c == '/'))
    match d.dropWhile (fun c => !(c == '/')) with
    | [] => .err [String.append (String.append "Strange data format: \x27" (String.mk d)) "\x27"]
    | _ :: tl =>
      let tail := String.mk tl
      if String.mk t == "bytes" then dataFromHex tail
      else if String.mk t == "string" then .ok (utf8Str tail)
      else if String.mk t == "int" then Res.bind (parseI64 tail) (fun i => .ok (i64Be i))
      else if String.mk t == "float" then .err ["float literals are outside this model"]
      else if String.mk t == "bool" then .ok (if tail == "true" then [1] else [0])
      else if String.mk t == "array" then .ok [1]
      else .err [String.append (String.append "Unknown type of data \x27" (String.mk t)) "\x27"]

/-- `Gmi` (src/gmi.rs): the synthetic-variable table and the script. -/
structure Gmi where
  vars : List (String × Nat)
  text : String
deriving Repr, DecidableEq

/-- `Gmi::from_string`. -/
def gmiFromString (s : String) : Gmi := { vars := [], text := s }

/-- `Gmi::parse` (src/gmi.rs): `$name` resolves to a fresh id on first
sight (the allocator is bumped so distinct names get distinct ids) and to
the recorded id afterwards; any other argument drops its first character
and parses the rest as a `u32`; an empty argument panics on
`chars().next().unwrap()`. -/
def gmiParse (gmi : Gmi) (u : EUni) (s : String) : Res (Nat × Gmi × EUni) :=
  match s.toList with
  | [] => .panic "called Option::unwrap on a None value"
  | c :: rest =>
    let tail := String.mk rest
    if c == Char.ofNat 36 then
      match (gmi.vars.find? (fun p => p.1 == tail)).map (fun p => p.2) with
      | some v => .ok (v, gmi, u)
      | none =>
        let v := u.nextIdE
        .ok (v, { gmi with vars := gmi.vars ++ [(tail, v)] }, { u with enext := v + 1 })
    else
      match toNatQ tail with
      | some n =>
        if n < 4294967296 then .ok (n, gmi, u)
        else .err [String.append (String.append "Parsing of \x27" s) "\x27 failed"]
      | none => .err [String.append (String.append "Parsing of \x27" s) "\x27 failed"]

/-- The parse-error message of `Gmi::deploy_one`. -/
def mkCantParseMsg (line : String) : String :=
  String.append (String.append "Can\x27t parse \x27" line) "\x27"

/-- The per-line failure context of `Gmi::deploy_to` (0-based `pos`). -/
def mkFailLineMsg (pos : Nat) (t : String) : String :=
  String.append (String.append (String.append "Failure at the line no."
    (toString pos)) ": \x27") (String.append t "\x27")

/-- `&args[i]`: Rust indexing panics when the argument is missing. -/
def idxArg (args : List String) (i : Nat) : Res String :=
  match args.get? i with
  | some s => .ok s
  | none => .panic "index out of bounds"

/-- `Gmi::deploy_one` (src/gmi.rs): parse the line, dispatch on the
operation, and wrap any store failure in a `Failed to OP(..)` context. -/
def deployOne (gmi : Gmi) (u : EUni) (line : String) : Res (Gmi × EUni) :=
  match parseGmiLine line with
  | none => .err [mkCantParseMsg line]
  | some (op, args) =>
    if op == "ADD" then
      Res.bind (idxArg args 0) (fun a0 =>
      Res.bind (gmiParse gmi u a0) (fun p =>
      Res.ctx (String.append (String.append "Failed to ADD(" a0) ")")
        (Res.bind (p.2.2.addE p.1) (fun u' => .ok (p.2.1, u')))))
    else if op == "BIND" then
      Res.bind (idxArg args 0) (fun a0 =>
      Res.bind (gmiParse gmi u a0) (fun p0 =>
      Res.bind (idxArg args 1) (fun a1 =>
      Res.bind (gmiParse p0.2.1 p0.2.2 a1) (fun p1 =>
      Res.bind (idxArg args 2) (fun a2 =>
      Res.bind (gmiParse p1.2.1 p1.2.2 a2) (fun p2 =>
      Res.bind (idxArg args 3) (fun a3 =>
      Res.ctx (String.append (String.append "Failed to BIND(" a0)
          (String.append ", " (String.append a1 (String.append ", " (String.append a2 ")")))))
        (Res.bind (EUni.bindE 3 p2.2.2 p0.1 p1.1 p2.1 a3)
          (fun u' => .ok (p2.2.1, u'))))))))))
    else if op == "COPY" then
      Res.bind (idxArg args 0) (fun a0 =>
      Res.bind (gmiParse gmi u a0) (fun p0 =>
      Res.bind (idxArg args 1) (fun a1 =>
      Res.bind (gmiParse p0.2.1 p0.2.2 a1) (fun p1 =>
      Res.bind (idxArg args 2) (fun a2 =>
      Res.bind (gmiParse p1.2.1 p1.2.2 a2) (fun p2 =>
      Res.ctx (String.append (String.append "Failed to COPY(" a0)
          (String.append ", " (String.append a1 (String.append ", " (String.append a2 ")")))))
        (Res.bind (p2.2.2.copyE p0.1 p1.1 p2.1)
          (fun u' => .ok (p2.2.1, u')))))))))
    else if op == "DATA" then
      Res.bind (idxArg args 0) (fun a0 =>
      Res.bind (gmiParse gmi u a0) (fun p0 =>
      Res.bind (idxArg args 1) (fun a1 =>
      Res.bind (parseData a1) (fun d =>
      Res.ctx (String.append (String.append "Failed to DATA(" a0) ")")
        (Res.bind (p0.2.2.dataE p0.1 d) (fun u' => .ok (p0.2.1, u')))))))
    else if op == "ATOM" then
      Res.bind (idxArg args 0) (fun a0 =>
      Res.bind (gmiParse gmi u a0) (fun p0 =>
      Res.bind (idxArg args 1) (fun a1 =>
      Res.ctx (String.append (String.append "Failed to ATOM(" a0) ")")
        (Res.bind (p0.2.2.atomE p0.1 a1) (fun u' => .ok (p0.2.1, u'))))))
    else .err [String.append "Unknown GMI: " op]

/-- The loop of `Gmi::deploy_to` (src/gmi.rs): each non-empty trimmed line
is deployed in order; a failure is wrapped in the context
`Failure at the line no.{pos}: '{line}'`, where `pos` is the 0-based
enumeration index (the trace message of the source uses `pos + 1`, the
error context uses `pos`). -/
def deployLines : Gmi → EUni → Nat → List String → Res (Gmi × EUni)
  | gmi, u, _, [] => .ok (gmi, u)
  | gmi, u, pos, t :: rest =>
    Res.bind
      (Res.ctx (mkFailLineMsg pos t) (deployOne gmi u t))
      (fun p => deployLines p.1 p.2 (pos + 1) rest)

/-- Split a character list on newline characters (`str::split('\n')`). -/
def splitNl : List Char → List (List Char)
  | [] => [[]]
  | c :: rest =>
    if c == Char.ofNat 10 then [] :: splitNl rest
    else
      match splitNl rest with
      | h :: t => (c :: h) :: t
      | [] => [[c]]

/-- `str::trim` (ASCII whitespace suffices for split lines). -/
def trimC (l : List Char) : List Char :=
  let isW : Char → Bool := fun c =>
    c == ' ' || c == Char.ofNat 9 || c == Char.ofNat 10 || c == Char.ofNat 13
  ((l.dropWhile isW).reverse.dropWhile isW).reverse

/-- `Gmi::deploy_to` (src/gmi.rs): split the script on newlines, trim,
drop empty lines, deploy each.  The Rust return value is `Ok(())` — the
first component of the result — with the mutated state threaded
alongside. -/
def deployTo (gmi : Gmi) (u : EUni) : Res (Unit × Gmi × EUni) :=
  let ls := (((splitNl gmi.text.toList).map trimC).filter
    (fun t => !t.isEmpty)).map (fun t => String.mk t)
  Res.bind (deployLines gmi u 0 ls) (fun p => .ok ((), p.1, p.2))

/-- The Rust `i64` division operator used unguarded in `int_div`
(src/org/eolang/int.rs, line 50): truncating division, panicking on a
zero divisor and on the `i64::MIN / -1` overflow — there is no error
branch. -/
def rustI64Div (rho x : Int) : Res Int :=
  if x = 0 then .panic "attempt to divide by zero"
  else if rho = -(2 ^ 63) ∧ x = -1 then .panic "attempt to divide with overflow"
  else .ok (Int.tdiv rho x)

/--
`int_div` (src/org/eolang/int.rs): dataize `ν{v}.ρ` and `ν{v}.α0` to
`i64`, divide, and wrap the quotient in a fresh integer vertex.
Modelled from the spec: the wrapping helper `copy_of_int`
(src/scripts.rs) relies on `Universe::reff`, whose definition is absent
from `src/`; per spec §4.3 the atom "allocates a fresh integer-carrying
vertex and returns it", abstracted here as `alloc`.  The two dataize-and-
`to_i64` reads are abstracted as the oracle `dz`, so the division logic —
the subject of the claim — is exactly the source's.
-/
def intDiv (dz : String → Res Int) (alloc : Int → Res Nat) (v : Nat) : Res Nat :=
  Res.bind (dz (String.append (mkNu v) ".ρ")) (fun rho =>
  Res.bind (dz (String.append (mkNu v) ".α0")) (fun x =>
  Res.bind (rustI64Div rho x) (fun q => alloc q)))

/- Concrete instances used by witnesses and counterexamples. -/

/-- A default atom oracle (no claim ever invokes a registered atom). -/
def ruD : AtomOracle := fun _ _ _ => Res.err ["no atom behaviour"]

/-- Scenario S1: `Φ.foo` is a vertex whose `Δ` edge reaches a datum. -/
def gS1 : Sodg :=
  { next := 3, verts := [0, 1, 2],
    edges := [(0, "foo", 1), (1, lDelta, 2)], datas := [(2, [255, 255])] }

/-- Engine over the S1 graph. -/
def uS1 : Universe := { g := gS1, atoms := [], depth := 0 }

/-- The locator `Φ.foo`. -/
def locFoo : List Tok := [Tok.attr lPhiBig, Tok.attr "foo"]

/-- Scenario S5: `a.ε = a` — a dispatch self-loop. -/
def gEps : Sodg :=
  { next := 2, verts := [0, 1],
    edges := [(0, "a", 1), (1, lEps, 1)], datas := [] }

/-- Engine over the S5 graph. -/
def uEps : Universe := { g := gEps, atoms := [], depth := 0 }

/-- The locator `Φ.a`. -/
def locA : List Tok := [Tok.attr lPhiBig, Tok.attr "a"]

/-- Scenario S4: `ν1 -γ-> ν2`, `ν2 -foo-> ν3`. -/
def gC4 : Sodg :=
  { next := 4, verts := [0, 1, 2, 3],
    edges := [(1, lGamma, 2), (2, "foo", 3)], datas := [] }

/-- Engine over the S4 graph. -/
def uC4 : Universe := { g := gC4, atoms := [], depth := 0 }

/-- The state after the inner resolution of `foo` on `ν2` (`fnd` run at
depth 2): the graph is untouched. -/
def wC4 : Universe := { g := gC4, atoms := [], depth := 2 }

/-- The S4 graph after the `γ` memoisation `ν1 -foo-> ν3`. -/
def g2C4 : Sodg :=
  { next := 4, verts := [0, 1, 2, 3],
    edges := [(1, lGamma, 2), (2, "foo", 3), (1, "foo", 3)], datas := [] }

/-- Two vertices, a `π` edge and then a `φ` edge bound between them in
the early store — both mutations succeed. -/
def euBadChain : Res EUni :=
  Res.bind (EUni.empty.addE 1) (fun a =>
  Res.bind (a.addE 2) (fun b =>
  Res.bind (EUni.bindE 3 b 5 1 2 lPi) (fun c =>
  EUni.bindE 3 c 9 1 2 lPhi)))

/-- The early store holding both `π` and `φ` on `ν1`. -/
def euBad : EUni := Res.okD euBadChain EUni.empty

/-- One user-labelled bind in the early store. -/
def euFooChain : Res EUni :=
  Res.bind (EUni.empty.addE 1) (fun a =>
  Res.bind (a.addE 2) (fun b =>
  EUni.bindE 3 b 5 1 2 "foo"))

/-- The early store after `bind(5, 1, 2, "foo")`. -/
def euFoo : EUni := Res.okD euFooChain EUni.empty

/-- A graph whose `Φ.f` vertex carries a `λ` edge to the UTF-8 bytes of
the atom name `foo`, with no atoms registered. -/
def gC7 : Sodg :=
  { next := 3, verts := [0, 1, 2],
    edges := [(0, "f", 1), (1, lLambda, 2)], datas := [(2, [102, 111, 111])] }

/-- Engine over that graph (empty atom registry). -/
def uC7 : Universe := { g := gC7, atoms := [], depth := 0 }

/-- The locator `Φ.f`. -/
def locC7 : List Tok := [Tok.attr lPhiBig, Tok.attr "f"]

/-- The panic message of the unregistered-atom `unwrap`. -/
def msgC7 : String := "Can\x27t find function foo among 0 others"

/-- A script with one malformed line. -/
def gmiBad : Gmi := gmiFromString "FOO"

/-- A well-formed two-instruction script. -/
def gmiOk : Gmi := gmiFromString "ADD(\x27ν0\x27);\nADD(\x27ν1\x27);"

/-- A dataize oracle for the division atom: `ν5.ρ` holds 7, `ν5.α0`
holds 0. -/
def dzC10 : String → Res Int := fun s => if s == "ν5.ρ" then .ok 7 else .ok 0

/-- A trivial fresh-vertex allocator for the division atom. -/
def allocC10 : Int → Res Nat := fun _ => .ok 9

/-- Graph for the apply witness: exemplar `ν1` with a nil attribute
`x` (its target `ν2` is a nil: only a `ρ` edge), copy owner `ν3` with
`π` to the exemplar, a datum edge `Δ` and a back-edge `σ`. -/
def gC3 : Sodg :=
  { next := 6, verts := [0, 1, 2, 3, 5],
    edges := [(1, "x", 2), (2, lRho, 1), (3, lPi, 1), (3, lDelta, 5), (3, lSigma, 0)],
    datas := [(5, [42])] }

/-- Engine over the apply-witness graph. -/
def uC3 : Universe := { g := gC3, atoms := [], depth := 0 }

/-- The invariant of spec §3: no vertex has both a `π` and a `φ`
outgoing edge (at most one of the two labels leaves any vertex). -/
def InvG (g : Sodg) : Prop := ∀ v, piPhiCount g v ≤ 1

/-- The atom oracle respects the invariant: real atoms mutate the graph
only through the engine's checked operations. -/
def RuPreserves (ru : AtomOracle) : Prop :=
  ∀ s u v w r, InvG u.g → ru s u v = Res.ok (w, r) → InvG w.g

/-- Well-formed allocation of the early store: every used id is below the
allocator. -/
def wfE (u : EUni) : Prop :=
  (∀ p ∈ u.eedges, p.1 < u.enext) ∧ (∀ p ∈ u.vertices, p.1 < u.enext)

/-- The early store after adding vertices `ν1` and `ν2`. -/
def euTwo : EUni :=
  { enext := 3, vertices := [(1, EVertex.emptyV), (2, EVertex.emptyV)], eedges := [] }

/- Helper lemmas. -/

theorem Res.bind_ok (a : α) (f : α → Res β) : Res.bind (Res.ok a) f = f a := rfl

theorem Res.bind_err (e : List String) (f : α → Res β) : Res.bind (Res.err e) f = Res.err e := rfl

theorem Res.bind_panic (m : String) (f : α → Res β) : Res.bind (Res.panic m) f = Res.panic m := rfl

theorem Res.bind_fuel (f : α → Res β) : Res.bind (Res.fuel) f = Res.fuel := rfl

theorem Res.bind_assoc (r : Res α) (f : α → Res β) (g : β → Res γ) :
    Res.bind (Res.bind r f) g = Res.bind r (fun a => Res.bind (f a) g) := by
  cases r <;> rfl

theorem Res.bind_eq_ok {r : Res α} {f : α → Res β} {b : β} :
    Res.bind r f = Res.ok b ↔ ∃ a, r = Res.ok a ∧ f a = Res.ok b := by
  cases r <;> simp [Res.bind]

theorem Res.ctx_eq_ok {m : String} {r : Res α} {b : α} :
    Res.ctx m r = Res.ok b ↔ r = Res.ok b := by
  cases r <;> simp [Res.ctx]

theorem Res.ctx_isErr {m : String} {r : Res α} : (Res.ctx m r).isErr = r.isErr := by
  cases r <;> rfl

theorem Res.isErr_bind {r : Res α} {f : α → Res β} :
    (Res.bind r f).isErr = true ↔ r.isErr = true ∨ ∃ a, r = Res.ok a ∧ (f a).isErr = true := by
  cases r <;> simp [Res.bind, Res.isErr]

theorem enterIt_g (u : Universe) : (enterIt u).g = u.g := rfl

theorem exitIt_g (u : Universe) : (exitIt u).g = u.g := rfl

theorem enterIt_atoms (u : Universe) : (enterIt u).atoms = u.atoms := rfl

theorem exitIt_atoms (u : Universe) : (exitIt u).atoms = u.atoms := rfl

/- C10. -/

/--
C10: `int$div` divides with an unguarded native division.  Whenever the
subject dataizes to some integer and the argument `ν v.α0` dataizes to
zero, the atom panics at the division (`rho / x` in
src/org/eolang/int.rs, line 50) — there is no error branch, and no error
result is ever produced for a zero divisor.
-/
theorem int_div_zero_divisor_unguarded :
    ∀ (dz : String → Res Int) (alloc : Int → Res Nat) (v : Nat) (rho : Int),
    dz (String.append (mkNu v) ".ρ") = Res.ok rho →
    dz (String.append (mkNu v) ".α0") = Res.ok 0 →
    intDiv dz alloc v = Res.panic "attempt to divide by zero" ∧
    (intDiv dz alloc v).isErr = false := by
  intro dz alloc v rho h1 h2
  have : intDiv dz alloc v = Res.panic "attempt to divide by zero" := by
    unfold intDiv
    rw [h1, Res.bind_ok, h2, Res.bind_ok]
    rfl
  exact ⟨this, by rw [this]; rfl⟩

/-- Witness for C10 at the concrete oracle `dzC10`. -/
theorem int_div_zero_divisor_unguarded_witness :
    intDiv dzC10 allocC10 5 = Res.panic "attempt to divide by zero" ∧
    (intDiv dzC10 allocC10 5).isErr = false :=
  int_div_zero_divisor_unguarded dzC10 allocC10 5 7 (by decide) (by decide)

/- C2. -/

/-- On the S5 graph (`a.ε = a`, vertex 1), dynamic dispatch never
terminates: it yields fuel exhaustion at every fuel value. -/
theorem eps_dd_diverges (ru : AtomOracle) :
    ∀ f (u : Universe) (psi : Nat), u.g = gEps → dd ru f u 1 psi = Res.fuel := by
  intro f
  induction f with
  | zero => intro u psi _; rfl
  | succ f ih =>
    intro u psi h
    have h2 : (enterIt u).g.kid 1 lEps = some 1 := by rw [enterIt_g, h]; rfl
    have h1 : (enterIt u).g.kid 1 lPsi = none := by rw [enterIt_g, h]; rfl
    simp only [dd, h1, h2]
    rw [ih (enterIt u) psi (by rw [enterIt_g, h])]
    rfl

/--
C2: the recursion guard is absent from the code (the depth check at
src/universe.rs lines 31-34 is commented out), so on the graph
`a.ε = a` the evaluation `dataize("Φ.a")` does not terminate at any
fuel value — in particular it never produces the promised
`RecursionTooDeep` error (nor any other result).
-/
theorem recursion_guard_absent_dataize_diverges :
    ∀ (ru : AtomOracle) (fF : Nat), dataizeU ru fF uEps locA = Res.fuel := by
  intro ru fF
  have hfnd : fnd ru fF uEps 1 lDelta 0 = Res.fuel := by
    cases fF with
    | zero => rfl
    | succ f =>
      simp only [fnd]
      rw [eps_dd_diverges ru f (enterIt uEps) 0 rfl]
      rfl
  have hs : sfind ru fF uEps 0 (locA ++ [Tok.attr lDelta]) =
      Res.bind (fnd ru fF uEps 1 lDelta 0) (fun p => sfind ru fF p.1 p.2 []) := rfl
  have hfind : findU ru fF uEps (locA ++ [Tok.attr lDelta]) = Res.fuel := by
    show Res.ctx _ (sfind ru fF uEps 0 (locA ++ [Tok.attr lDelta])) = Res.fuel
    rw [hs, hfnd]
    rfl
  show Res.bind (Res.ctx _ (findU ru fF uEps (locA ++ [Tok.attr lDelta]))) _ = Res.fuel
  rw [hfind]
  rfl

/- C7. -/

/--
C7 counterexample: on a graph whose `Φ.f` carries a `λ` naming the
unregistered atom `foo`, `dataize("Φ.f")` does not return an error
result: it panics (the source's `.context(..).unwrap()` on the registry
lookup, src/universe.rs lines 211-218), with a message naming the atom
and the registry size, not the vertex.
-/
theorem atom_missing_panics_counterexample :
    dataizeU ruD 10 uC7 locC7 = Res.panic msgC7 ∧
    (dataizeU ruD 10 uC7 locC7).isErr = false :=
  ⟨rfl, rfl⟩

/--
C7 (amended): whenever path-find reaches a vertex with no direct edge for
the requested attribute and a `λ` edge whose datum decodes to a name that
is not in the atom registry, the engine panics with `Can't find function
<name> among <N> others` (naming the atom and the registry size); it does
not return an error result.
-/
theorem atom_missing_panic :
    ∀ (ru : AtomOracle) (f : Nat) (u : Universe) (v : Nat) (a : String) (psi lv : Nat)
      (bs : Bytes) (lam : String),
    u.g.kid v a = none →
    u.g.kid v lLambda = some lv →
    u.g.dataR lv = Res.ok bs →
    toUtf8 bs = Res.ok lam →
    u.atoms.contains lam = false →
    pf ru (f + 1) u v a psi =
      Res.panic (String.append (String.append "Can\x27t find function " lam)
        (String.append (String.append " among " (toString u.atoms.length)) " others")) := by
  intro ru f u v a psi lv bs lam h1 h2 h3 h4 h5
  simp only [pf, enterIt_g, enterIt_atoms, h1, h2, h3, h4, h5, Res.bind_ok]
  simp

/-- Witness for the amended C7 at the concrete graph. -/
theorem atom_missing_panic_witness :
    pf ruD 3 uC7 1 lDelta 0 =
      Res.panic (String.append (String.append "Can\x27t find function " "foo")
        (String.append (String.append " among " (toString uC7.atoms.length)) " others")) :=
  atom_missing_panic ruD 2 uC7 1 lDelta 0 2 [102, 111, 111] "foo" rfl rfl rfl rfl rfl

/- C9. -/

/--
C9 counterexample: the script whose single line `FOO` is malformed fails
with the context `Failure at the line no.0: 'FOO'` — the 0-based
enumeration index, not the line number (the line is line 1); and a fully
successful deployment returns `Ok(())` (the unit value), not the number
of instructions deployed.
-/
theorem deploy_line_number_counterexample :
    deployTo gmiBad EUni.empty =
      Res.err [mkFailLineMsg 0 "FOO", mkCantParseMsg "FOO"] ∧
    (deployTo gmiOk EUni.empty).isOk = true :=
  ⟨rfl, rfl⟩

/--
C9 (amended): a malformed line makes the deployment fail with a parse
error whose context names the 0-based position of the line among the
non-empty trimmed lines together with the line's text; any failure of
`deploy_one` (including graph-store failures, which `deploy_one` wraps
with the offending instruction's arguments) is wrapped in that same
per-line context; a fully successful deployment returns unit, not an
instruction count.
-/
theorem deploy_error_contexts :
    ∀ (gmi : Gmi) (u : EUni) (pos : Nat) (t : String) (rest : List String)
      (e : List String),
    (parseGmiLine t = none →
      deployLines gmi u pos (t :: rest) =
        Res.err [mkFailLineMsg pos t, mkCantParseMsg t]) ∧
    (deployOne gmi u t = Res.err e →
      deployLines gmi u pos (t :: rest) = Res.err (mkFailLineMsg pos t :: e)) ∧
    (∀ r, deployTo gmi u = Res.ok r → r.1 = ()) := by
  intro gmi u pos t rest e
  refine ⟨?_, ?_, ?_⟩
  · intro h
    simp only [deployLines, deployOne, h, Res.ctx]
    rfl
  · intro h
    simp only [deployLines, h, Res.ctx]
    rfl
  · intro r _
    rfl

/-- Witness for the amended C9: the malformed line `FOO` at position 0. -/
theorem deploy_error_contexts_witness :
    deployLines gmiBad EUni.empty 0 ["FOO"] =
      Res.err [mkFailLineMsg 0 "FOO", mkCantParseMsg "FOO"] :=
  (deploy_error_contexts gmiBad EUni.empty 0 "FOO" [] []).1 rfl

/- C6 and C5 counterexamples over the early store. -/

/--
C6 counterexample: a successful `bind(5, 1, 2, "foo")` of the early store
(src/universe/i_bind.rs) does not add exactly one edge: it synthesises
the reciprocal back-edges `ν2 -ρ-> ν1` and `ν2 -𝜎-> ν1` on its own,
leaving three new edges in the store.
-/
theorem bind_backedges_counterexample :
    euFooChain = Res.ok euFoo ∧
    euFoo.edgeL 2 lRho = some 1 ∧
    euFoo.edgeL 2 lSigmaIt = some 1 ∧
    euFoo.eedges.length = 3 :=
  ⟨rfl, rfl, rfl, rfl⟩

/--
C5 counterexample: in the early store (src/universe/i_bind.rs with
src/universe/inconsistencies.rs) binding `π` and then `φ` between the
same two vertices succeeds — the mutation that creates a vertex with
both `π` and `φ` takes effect, and the violation is only reported by the
separate `inconsistencies()` validation pass.
-/
theorem early_pi_phi_counterexample :
    euBadChain = Res.ok euBad ∧
    exclusiveTrio euBad = [String.append (mkNu 1) " can\x27t have both π and φ"] ∧
    inconsistenciesE euBad ≠ [] :=
  ⟨rfl, rfl, by decide⟩

/- C1. -/

theorem Res.ctx_ok (m : String) (a : α) : Res.ctx m (Res.ok a) = Res.ok a := rfl

theorem Res.ctx_err {α : Type} (m : String) (e : List String) :
    Res.ctx m (Res.err e : Res α) = Res.err (m :: e) := rfl

theorem Res.ctx_panic (m s : String) :
    Res.ctx m (Res.panic s : Res α) = Res.panic s := rfl

theorem Res.ctx_fuel (m : String) : Res.ctx m (Res.fuel : Res α) = Res.fuel := rfl

theorem Res.bind_congr {r : Res α} {f g : α → Res β} (h : ∀ a, f a = g a) :
    Res.bind r f = Res.bind r g := by
  cases r <;> simp [Res.bind, h]

/-- The store walk distributes over locator concatenation. -/
theorem sfind_append (ru : AtomOracle) (fF : Nat) :
    ∀ (ts : List Tok) (u : Universe) (v : Nat) (ts' : List Tok),
    sfind ru fF u v (ts ++ ts') =
      Res.bind (sfind ru fF u v ts) (fun p => sfind ru fF p.1 p.2 ts') := by
  intro ts
  induction ts with
  | nil => intro u v ts'; rfl
  | cons t ts ih =>
    intro u v ts'
    cases t with
    | nu n =>
      show sfind ru fF u n (ts ++ ts') = _
      exact ih u n ts'
    | attr a =>
      by_cases h : (a == lXi || a == lDollar) = true
      · simp only [sfind, h, if_true]
        exact ih u v ts'
      · rw [Bool.not_eq_true] at h
        simp only [sfind, h, Bool.false_eq_true, if_false]
        cases hk : u.g.kid v a with
        | some tgt => exact ih u tgt ts'
        | none =>
          rw [Res.bind_assoc]
          exact Res.bind_congr (fun p => ih p.1 p.2 ts')

theorem findU_eq (ru : AtomOracle) (fF : Nat) (u : Universe) (loc : List Tok) :
    findU ru fF u loc =
      if u.g.isEmptyG then
        Res.err [String.append (String.append "The Universe is empty, can\x27t dataize "
          (locStr loc)) ""]
      else Res.ctx (String.append "Failed to find " (locStr loc)) (sfind ru fF u 0 loc) := rfl

theorem dataizeU_eq (ru : AtomOracle) (fF : Nat) (u : Universe) (loc : List Tok) :
    dataizeU ru fF u loc =
      Res.bind (Res.ctx (String.append "Can\x27t find " (locStr loc))
          (findU ru fF u (loc ++ [Tok.attr lDelta]))) (fun p =>
        Res.bind (Res.ctx (String.append "There is no data in " (mkNu p.2)) (p.1.g.dataR p.2))
          (fun d => Res.ok (p.1, d))) := rfl

/-- A successful `find` implies the graph was not empty. -/
theorem findU_ok_not_empty {ru : AtomOracle} {fF : Nat} {u : Universe} {loc : List Tok}
    {p : Universe × Nat} (h : findU ru fF u loc = Res.ok p) : u.g.isEmptyG = false := by
  rw [findU_eq] at h
  cases he : u.g.isEmptyG with
  | false => rfl
  | true => rw [he] at h; simp at h

/-- A panicking or diverging `find` also implies the graph was not empty. -/
theorem findU_not_err_not_empty {ru : AtomOracle} {fF : Nat} {u : Universe} {loc : List Tok}
    (h : (findU ru fF u loc).isErr = false) : u.g.isEmptyG = false := by
  rw [findU_eq] at h
  cases he : u.g.isEmptyG with
  | false => rfl
  | true => rw [he] at h; simp [Res.isErr] at h

/--
C1: `dataize(loc)` resolves `loc` with `.Δ` appended to a vertex and
returns exactly that vertex's datum bytes (first conjunct); it fails —
returns an error result — if and only if the graph is empty, the
`.Δ`-appended locator cannot be resolved, or the resolved vertex carries
no datum (second conjunct); and whenever `loc` resolves to a vertex that
carries a `Δ` edge to a datum-holding vertex, `dataize(loc)` returns
those bytes (third conjunct).
-/
theorem dataize_resolves_delta :
    (∀ (ru : AtomOracle) (fF : Nat) (u : Universe) (loc : List Tok)
       (u1 : Universe) (bs : Bytes),
      dataizeU ru fF u loc = Res.ok (u1, bs) ↔
        ∃ v, findU ru fF u (loc ++ [Tok.attr lDelta]) = Res.ok (u1, v) ∧
             u1.g.dataR v = Res.ok bs) ∧
    (∀ (ru : AtomOracle) (fF : Nat) (u : Universe) (loc : List Tok),
      (dataizeU ru fF u loc).isErr = true ↔
        (u.g.isEmptyG = true ∨
         (findU ru fF u (loc ++ [Tok.attr lDelta])).isErr = true ∨
         ∃ p, findU ru fF u (loc ++ [Tok.attr lDelta]) = Res.ok p ∧
              (p.1.g.dataR p.2).isErr = true)) ∧
    (∀ (ru : AtomOracle) (fF : Nat) (u : Universe) (loc : List Tok)
       (u1 : Universe) (v d : Nat) (bs : Bytes),
      findU ru fF u loc = Res.ok (u1, v) →
      u1.g.kid v lDelta = some d →
      u1.g.dataR d = Res.ok bs →
      dataizeU ru fF u loc = Res.ok (u1, bs)) := by
  refine ⟨?_, ?_, ?_⟩
  · intro ru fF u loc u1 bs
    rw [dataizeU_eq]
    cases hf : findU ru fF u (loc ++ [Tok.attr lDelta]) with
    | ok p =>
      rw [Res.ctx_ok, Res.bind_ok]
      cases hd : p.1.g.dataR p.2 with
      | ok d =>
        rw [Res.ctx_ok, Res.bind_ok]
        constructor
        · intro h
          rw [Res.ok.injEq, Prod.mk.injEq] at h
          refine ⟨p.2, ?_, ?_⟩
          · rw [← h.1]
          · rw [← h.1, ← h.2]; exact hd
        · rintro ⟨v, hv, hdd⟩
          rw [Res.ok.injEq] at hv
          have h1 : p.1 = u1 := by rw [hv]
          have h2 : p.2 = v := by rw [hv]
          rw [h1, h2] at hd
          have hbs : d = bs := Res.ok.inj (hd.symm.trans hdd)
          rw [h1, hbs]
      | err e =>
        rw [Res.ctx_err, Res.bind_err]
        constructor
        · intro h; exact Res.noConfusion h
        · rintro ⟨x, hx, hc⟩
          have hp := Res.ok.inj hx
          have h1 : p.1 = u1 := by rw [hp]
          have h2 : p.2 = x := by rw [hp]
          rw [h1, h2] at hd
          rw [hd] at hc
          exact Res.noConfusion hc
      | panic m =>
        rw [Res.ctx_panic, Res.bind_panic]
        constructor
        · intro h; exact Res.noConfusion h
        · rintro ⟨x, hx, hc⟩
          have hp := Res.ok.inj hx
          have h1 : p.1 = u1 := by rw [hp]
          have h2 : p.2 = x := by rw [hp]
          rw [h1, h2] at hd
          rw [hd] at hc
          exact Res.noConfusion hc
      | fuel =>
        rw [Res.ctx_fuel, Res.bind_fuel]
        constructor
        · intro h; exact Res.noConfusion h
        · rintro ⟨x, hx, hc⟩
          have hp := Res.ok.inj hx
          have h1 : p.1 = u1 := by rw [hp]
          have h2 : p.2 = x := by rw [hp]
          rw [h1, h2] at hd
          rw [hd] at hc
          exact Res.noConfusion hc
    | err e => rw [Res.ctx_err, Res.bind_err]; simp
    | panic m => rw [Res.ctx_panic, Res.bind_panic]; simp
    | fuel => rw [Res.ctx_fuel, Res.bind_fuel]; simp
  · intro ru fF u loc
    rw [dataizeU_eq]
    cases hf : findU ru fF u (loc ++ [Tok.attr lDelta]) with
    | ok p =>
      rw [Res.ctx_ok, Res.bind_ok]
      have hne := findU_ok_not_empty hf
      cases hd : p.1.g.dataR p.2 with
      | ok d => simp [Res.ctx_ok, Res.bind_ok, Res.isErr, hne, hf, hd]
      | err e => simp [Res.ctx_err, Res.bind_err, Res.isErr, hne, hf, hd]
      | panic m => simp [Res.ctx_panic, Res.bind_panic, Res.isErr, hne, hf, hd]
      | fuel => simp [Res.ctx_fuel, Res.bind_fuel, Res.isErr, hne, hf, hd]
    | err e => simp [Res.ctx_err, Res.bind_err, Res.isErr, hf]
    | panic m =>
      have hne : u.g.isEmptyG = false :=
        findU_not_err_not_empty (by rw [hf]; rfl)
      simp [Res.ctx_panic, Res.bind_panic, Res.isErr, hne, hf]
    | fuel =>
      have hne : u.g.isEmptyG = false :=
        findU_not_err_not_empty (by rw [hf]; rfl)
      simp [Res.ctx_fuel, Res.bind_fuel, Res.isErr, hne, hf]
  · intro ru fF u loc u1 v d bs hf hk hd
    have hne := findU_ok_not_empty hf
    have hs : sfind ru fF u 0 loc = Res.ok (u1, v) := by
      rw [findU_eq, if_neg (by simp [hne])] at hf
      exact (Res.ctx_eq_ok).1 hf
    have hcond : (lDelta == lXi || lDelta == lDollar) = false := rfl
    have hstep : sfind ru fF u1 v [Tok.attr lDelta] = Res.ok (u1, d) := by
      simp only [sfind, hcond, Bool.false_eq_true, if_false, hk]
    have happ : sfind ru fF u 0 (loc ++ [Tok.attr lDelta]) = Res.ok (u1, d) := by
      rw [sfind_append, hs, Res.bind_ok, hstep]
    have hnotc : ¬(u.g.isEmptyG = true) := by simp [hne]
    simp only [dataizeU_eq, findU_eq, if_neg hnotc, happ, Res.ctx_ok, Res.bind_ok, hd]

/-- Witness for C1 on the S1 graph (`Φ.foo` carrying `Δ` to `FF-FF`). -/
theorem dataize_resolves_delta_witness :
    dataizeU ruD 50 uS1 locFoo = Res.ok (uS1, [255, 255]) :=
  dataize_resolves_delta.2.2 ruD 50 uS1 locFoo uS1 1 2 [255, 255] rfl rfl rfl

/- C4. -/

theorem findq_append {α : Type} (p : α → Bool) (l1 l2 : List α) :
    (l1 ++ l2).find? p = match l1.find? p with
      | some x => some x
      | none => l2.find? p := by
  induction l1 with
  | nil => rfl
  | cons x l ih =>
    by_cases h : p x = true
    · simp [List.find?_cons, h]
    · rw [Bool.not_eq_true] at h
      simp [List.find?_cons, h, ih]

/-- Inversion of a successful store bind. -/
theorem bindG_ok {g : Sodg} {v1 v2 : Nat} {a : String} {g' : Sodg}
    (h : g.bindG v1 v2 a = Res.ok g') :
    g.hasV v1 = true ∧ g.hasV v2 = true ∧ g.kid v1 a = none ∧
    g' = g.rawBind v1 v2 a ∧
    alertPiPhi g' [v1, v2] = [] := by
  unfold Sodg.bindG at h
  split at h
  · exact Res.noConfusion h
  split at h
  · exact Res.noConfusion h
  split at h
  · exact Res.noConfusion h
  simp only at h
  split at h
  case isTrue h1 h2 h3 h4 =>
    have hv1 : g.hasV v1 = true := by revert h1; cases g.hasV v1 <;> simp
    have hv2 : g.hasV v2 = true := by revert h2; cases g.hasV v2 <;> simp
    have hk : g.kid v1 a = none := by revert h3; cases g.kid v1 a <;> simp
    have hg : g' = g.rawBind v1 v2 a := (Res.ok.inj h).symm
    refine ⟨hv1, hv2, hk, hg, ?_⟩
    rw [hg]
    exact List.isEmpty_iff.mp h4
  case isFalse => exact Res.noConfusion h

/-- The freshly bound edge is the one `kid` finds. -/
theorem kid_append_self {g : Sodg} {v1 v2 : Nat} {a : String}
    (h : g.kid v1 a = none) :
    (g.rawBind v1 v2 a).kid v1 a = some v2 := by
  have hf : g.edges.find? (fun e => e.1 == v1 && e.2.1 == a) = none := by
    unfold Sodg.kid at h
    exact Option.map_eq_none.mp h
  unfold Sodg.kid Sodg.rawBind
  simp only [findq_append, hf]
  simp [List.find?_cons]

/--
C4: when a vertex `v` has no direct edge for the queried attribute `a`,
no `λ` and no `φ`, but a `γ` edge to `t` (and no dispatch edges, so that
`dd` leaves it unchanged), resolving `a` on `v` returns exactly the
result of resolving `a` on `t`, and on success — the inner resolution
and the memoisation bind both succeeding — the graph afterwards also
contains the direct edge `v -a-> r`, so a repeated lookup of `a` on `v`
hits that direct edge without touching the graph again.
-/
theorem gamma_memoisation :
    ∀ (ru : AtomOracle) (f : Nat) (u : Universe) (v : Nat) (a : String) (psi t : Nat)
      (w : Universe) (r : Nat) (g2 : Sodg),
    u.g.kid v a = none → u.g.kid v lLambda = none → u.g.kid v lPhi = none →
    u.g.kid v lEps = none → u.g.kid v lXi = none → u.g.kid v lBeta = none →
    u.g.kid v lPi = none →
    u.g.kid v lGamma = some t →
    fnd ru f (enterIt (enterIt u)) t a psi = Res.ok (w, r) →
    w.g.bindG v r a = Res.ok g2 →
    (fnd ru (f + 2) u v a psi = Res.ok (exitIt (exitIt { w with g := g2 }), r) ∧
     g2.kid v a = some r ∧
     (∀ (ru2 : AtomOracle) (f2 : Nat) (u2 : Universe) (psi2 : Nat),
        u2.g = g2 → g2.kid v lEps = none → g2.kid v lXi = none →
        g2.kid v lBeta = none → g2.kid v lPi = none →
        fnd ru2 (f2 + 2) u2 v a psi2 = Res.ok (u2, r))) := by
  intro ru f u v a psi t w r g2 ha hlam hphi heps hxi hbeta hpi hgam hin hb
  obtain ⟨-, -, hkidnone, hg2, -⟩ := bindG_ok hb
  have hkid : g2.kid v a = some r := by rw [hg2]; exact kid_append_self hkidnone
  have hdd : dd ru (f + 1) (enterIt u) v psi = Res.ok (enterIt u, v) := by
    simp only [dd, enterIt_g, heps, hxi, hbeta, hpi, Option.isSome_none,
      Bool.false_eq_true, if_false]
    rfl
  have hpf : pf ru (f + 1) (enterIt u) v a psi = Res.ok (exitIt { w with g := g2 }, r) := by
    simp only [pf, enterIt_g, ha, hlam, hphi, hgam]
    rw [hin, Res.bind_ok, hb, Res.bind_ok]
  refine ⟨?_, hkid, ?_⟩
  · simp only [fnd]
    rw [hdd, Res.bind_ok, hpf, Res.bind_ok]
  · intro ru2 f2 u2 psi2 hu2 h1 h2 h3 h4
    have hkid2 : u2.g.kid v a = some r := by rw [hu2]; exact hkid
    have hdd2 : dd ru2 (f2 + 1) (enterIt u2) v psi2 = Res.ok (enterIt u2, v) := by
      simp only [dd, enterIt_g, hu2, h1, h2, h3, h4, Option.isSome_none,
        Bool.false_eq_true, if_false]
      rfl
    have hpf2 : pf ru2 (f2 + 1) (enterIt u2) v a psi2 = Res.ok (enterIt u2, r) := by
      simp only [pf, enterIt_g, hkid2]
      rfl
    simp only [fnd]
    rw [hdd2, Res.bind_ok, hpf2, Res.bind_ok]
    rfl

/-- Witness for C4 on the S4 graph (`ν1 -γ-> ν2`, `ν2 -foo-> ν3`). -/
theorem gamma_memoisation_witness :
    fnd ruD 7 uC4 1 "foo" 0 = Res.ok (exitIt (exitIt { wC4 with g := g2C4 }), 3) ∧
    g2C4.kid 1 "foo" = some 3 ∧
    (∀ (ru2 : AtomOracle) (f2 : Nat) (u2 : Universe) (psi2 : Nat),
       u2.g = g2C4 → g2C4.kid 1 lEps = none → g2C4.kid 1 lXi = none →
       g2C4.kid 1 lBeta = none → g2C4.kid 1 lPi = none →
       fnd ru2 (f2 + 2) u2 1 "foo" psi2 = Res.ok (u2, 3)) :=
  gamma_memoisation ruD 5 uC4 1 "foo" 0 2 wC4 3 g2C4 rfl rfl rfl rfl rfl rfl rfl rfl rfl rfl

/- C3. -/

/-- `kid` answers are stable under appending edges (first match wins). -/
theorem kid_of_edges_append {g g' : Sodg} {l : List (Nat × String × Nat)} {v k : Nat}
    {a : String} (he : g'.edges = g.edges ++ l) (h : g.kid v a = some k) :
    g'.kid v a = some k := by
  unfold Sodg.kid at h ⊢
  obtain ⟨e, hfind, hval⟩ := Option.map_eq_some'.mp h
  rw [he, findq_append, hfind]
  simp [hval]

/-- `kidsL` membership is stable under appending edges. -/
theorem kidsL_of_edges_append {g g' : Sodg} {l : List (Nat × String × Nat)} {v k : Nat}
    {a : String} (he : g'.edges = g.edges ++ l) (h : (a, k) ∈ g.kidsL v) :
    (a, k) ∈ g'.kidsL v := by
  unfold Sodg.kidsL at h ⊢
  rw [he, List.filter_append, List.map_append]
  exact List.mem_append_left _ h

/-- Inversion of a successful `add`. -/
theorem addG_ok {g : Sodg} {v : Nat} {g' : Sodg} (h : g.addG v = Res.ok g') :
    g.hasV v = false ∧
    g' = { g with verts := g.verts ++ [v], next := max g.next (v + 1) } := by
  unfold Sodg.addG at h
  split at h
  case isTrue => exact Res.noConfusion h
  case isFalse hv =>
    simp only at h
    split at h
    case isTrue =>
      refine ⟨?_, (Res.ok.inj h).symm⟩
      revert hv
      cases g.hasV v <;> simp
    case isFalse => exact Res.noConfusion h

/-- Inversion of a successful `kids`. -/
theorem kidsR_ok {g : Sodg} {v : Nat} {ks : List (String × Nat)}
    (h : g.kidsR v = Res.ok ks) : ks = g.kidsL v := by
  unfold Sodg.kidsR at h
  split at h
  · exact (Res.ok.inj h).symm
  · exact Res.noConfusion h

/-- Inversion of a successful `down`: the edge is bound under the tied
label and becomes visible to `kid`. -/
theorem down_ok {f : Nat} {u : Universe} {v1 v2 : Nat} {a : String} {u' : Universe}
    (h : down f u v1 v2 a = Res.ok u') :
    ∃ a1, tie f u.g v1 a = Res.ok a1 ∧
      u'.g = u.g.rawBind v1 v2 a1 ∧ u'.g.kid v1 a1 = some v2 := by
  unfold down at h
  obtain ⟨a1, ht, hb⟩ := Res.bind_eq_ok.mp h
  obtain ⟨g', hbg, hok⟩ := Res.bind_eq_ok.mp hb
  obtain ⟨-, -, hnone, hg', -⟩ := bindG_ok hbg
  have hu' : u' = { u with g := g' } := (Res.ok.inj hok).symm
  refine ⟨a1, ht, ?_, ?_⟩
  · rw [hu', hg']
  · rw [hu', hg']
    exact kid_append_self hnone

/-- A successful `up` only appends edges. -/
theorem up_edges_ext {u : Universe} {v1 v2 : Nat} {a : String} {u' : Universe}
    (h : up u v1 v2 a = Res.ok u') : ∃ l, u'.g.edges = u.g.edges ++ l := by
  unfold up at h
  split at h
  · obtain ⟨g', hbg, hok⟩ := Res.bind_eq_ok.mp h
    obtain ⟨-, -, -, hg', -⟩ := bindG_ok hbg
    have hu' : u' = { u with g := g' } := (Res.ok.inj hok).symm
    exact ⟨_, by rw [hu', hg']; rfl⟩
  · obtain ⟨b, -, h2⟩ := Res.bind_eq_ok.mp h
    split at h2
    · obtain ⟨g', hbg, hok⟩ := Res.bind_eq_ok.mp h2
      obtain ⟨-, -, -, hg', -⟩ := bindG_ok hbg
      have hu' : u' = { u with g := g' } := (Res.ok.inj hok).symm
      exact ⟨_, by rw [hu', hg']; rfl⟩
    · obtain ⟨g1, ha1, h3⟩ := Res.bind_eq_ok.mp h2
      obtain ⟨g2, hb2, h4⟩ := Res.bind_eq_ok.mp h3
      obtain ⟨g3, hb3, h5⟩ := Res.bind_eq_ok.mp h4
      obtain ⟨g4, hb4, h6⟩ := Res.bind_eq_ok.mp h5
      obtain ⟨g5, hb5, hok⟩ := Res.bind_eq_ok.mp h6
      obtain ⟨-, hg1⟩ := addG_ok ha1
      obtain ⟨-, -, -, hg2, -⟩ := bindG_ok hb2
      obtain ⟨-, -, -, hg3, -⟩ := bindG_ok hb3
      obtain ⟨-, -, -, hg4, -⟩ := bindG_ok hb4
      obtain ⟨-, -, -, hg5, -⟩ := bindG_ok hb5
      have hu' : u' = { u with g := g5 } := (Res.ok.inj hok).symm
      have e1 : g1.edges = u.g.edges := by rw [hg1]
      have hedges : g5.edges = u.g.edges ++
          ([(v1, a, u.g.nextId)] ++ [(u.g.nextId, lRho, v1)] ++
           [(u.g.nextId, lPsi, v1)] ++ [(u.g.nextId, lPi, v2)]) := by
        rw [hg5, hg4, hg3, hg2]
        unfold Sodg.rawBind
        simp only []
        rw [e1]
        simp [List.append_assoc]
      exact ⟨_, by rw [hu']; exact hedges⟩

/-- A successful `pullList` only appends edges. -/
theorem pullList_edges_ext :
    ∀ (ks : List (String × Nat)) (u : Universe) (v1 : Nat) (u' : Universe),
    pullList u v1 ks = Res.ok u' → ∃ l, u'.g.edges = u.g.edges ++ l := by
  intro ks
  induction ks with
  | nil =>
    intro u v1 u' h
    exact ⟨[], by rw [← Res.ok.inj h]; simp⟩
  | cons p rest ih =>
    intro u v1 u' h
    obtain ⟨a, k⟩ := p
    unfold pullList at h
    split at h
    · exact ih u v1 u' h
    · obtain ⟨umid, hup, hrest⟩ := Res.bind_eq_ok.mp h
      obtain ⟨l1, h1⟩ := up_edges_ext hup
      obtain ⟨l2, h2⟩ := ih umid v1 u' hrest
      exact ⟨l1 ++ l2, by rw [h2, h1, List.append_assoc]⟩

/-- A successful `pull` only appends edges. -/
theorem pull_edges_ext {u : Universe} {v1 v2 : Nat} {u' : Universe}
    (h : pull u v1 v2 = Res.ok u') : ∃ l, u'.g.edges = u.g.edges ++ l := by
  unfold pull at h
  obtain ⟨ks, -, h2⟩ := Res.bind_eq_ok.mp h
  exact pullList_edges_ext ks u v1 u' h2

/-- The push loop binds every non-`π`/`ψ` edge of the snapshot under its
tied label, and the bound edge survives the rest of the loop. -/
theorem pushList_reaches :
    ∀ (ks : List (String × Nat)) (f : Nat) (u : Universe) (v1 : Nat) (u' : Universe),
    pushList f u v1 ks = Res.ok u' →
    (∃ l, u'.g.edges = u.g.edges ++ l) ∧
    ∀ a k, (a, k) ∈ ks → (a == lPi) = false → (a == lPsi) = false →
      ∃ a1 gmid, tie f gmid v1 a = Res.ok a1 ∧ u'.g.kid v1 a1 = some k := by
  intro ks
  induction ks with
  | nil =>
    intro f u v1 u' h
    have hu : u = u' := Res.ok.inj h
    refine ⟨⟨[], by rw [← hu]; simp⟩, ?_⟩
    intro a k hmem
    exact absurd hmem (List.not_mem_nil _)
  | cons p rest ih =>
    intro f u v1 u' h
    obtain ⟨a0, k0⟩ := p
    unfold pushList at h
    split at h
    case isTrue hcond =>
      obtain ⟨hext, hrest⟩ := ih f u v1 u' h
      refine ⟨hext, ?_⟩
      intro a k hmem hpi hpsi
      rcases List.mem_cons.mp hmem with heq | htail
      · rw [Prod.mk.injEq] at heq
        rw [heq.1] at hpi hpsi
        rw [hpi, hpsi] at hcond
        exact absurd hcond (by simp)
      · exact hrest a k htail hpi hpsi
    case isFalse hcond =>
      obtain ⟨umid, hdown, hrest⟩ := Res.bind_eq_ok.mp h
      obtain ⟨hext, htail⟩ := ih f umid v1 u' hrest
      obtain ⟨a1, ht, hgmid, hkid⟩ := down_ok hdown
      obtain ⟨l2, hl2⟩ := hext
      have hmidext : umid.g.edges = u.g.edges ++ [(v1, a1, k0)] := by
        rw [hgmid]; rfl
      refine ⟨⟨[(v1, a1, k0)] ++ l2, by rw [hl2, hmidext, List.append_assoc]⟩, ?_⟩
      intro a k hmem hpi hpsi
      rcases List.mem_cons.mp hmem with heq | htl
      · rw [Prod.mk.injEq] at heq
        refine ⟨a1, u.g, ?_, ?_⟩
        · rw [heq.1]; exact ht
        · rw [heq.2]
          exact kid_of_edges_append hl2 hkid
      · exact htail a k htl hpi hpsi

/--
C3: a successful `apply(v1, v2)` returns a freshly allocated vertex `nv`
(the allocator's next id, not yet a vertex of the graph), and for every
outgoing edge `(a, k)` of `v2` whose label is neither `π` nor `ψ`, `nv`
has an outgoing edge labelled with the tie-translation of `a` that
reaches `k`.
-/
theorem apply_structurality :
    ∀ (f : Nat) (u : Universe) (v1 v2 : Nat) (u' : Universe) (nv : Nat),
    applyV f u v1 v2 = Res.ok (u', nv) →
    nv = u.g.nextId ∧ u.g.hasV nv = false ∧
    ∀ a k, (a, k) ∈ u.g.kidsL v2 → (a == lPi) = false → (a == lPsi) = false →
      ∃ a1 gmid, tie f gmid nv a = Res.ok a1 ∧ u'.g.kid nv a1 = some k := by
  intro f u v1 v2 u' nv h
  unfold applyV at h
  obtain ⟨gA, hadd, h2⟩ := Res.bind_eq_ok.mp h
  obtain ⟨u2, hpull, h3⟩ := Res.bind_eq_ok.mp h2
  obtain ⟨u3, hpush, hok⟩ := Res.bind_eq_ok.mp h3
  have hnv : nv = u.g.nextId := by
    have := congrArg (fun p => p.2) (Res.ok.inj hok)
    exact this.symm
  have hu' : u' = exitIt u3 := by
    have := congrArg (fun p => p.1) (Res.ok.inj hok)
    exact this.symm
  obtain ⟨hfresh, hgA⟩ := addG_ok hadd
  subst hnv
  refine ⟨rfl, hfresh, ?_⟩
  intro a k hmem hpi hpsi
  unfold push at hpush
  obtain ⟨ks, hks, hplist⟩ := Res.bind_eq_ok.mp hpush
  obtain ⟨-, hreach⟩ := pushList_reaches ks f u2 (u.g.nextId) u3 hplist
  have hgAedges : gA.edges = u.g.edges := by rw [hgA]; rfl
  obtain ⟨l1, hl1⟩ := pull_edges_ext hpull
  have hmem2 : (a, k) ∈ u2.g.kidsL v2 := by
    refine kidsL_of_edges_append (g := u.g) (l := l1) ?_ hmem
    rw [hl1, hgAedges]
  rw [← kidsR_ok hks] at hmem2
  obtain ⟨a1, gmid, h5, h6⟩ := hreach a k hmem2 hpi hpsi
  refine ⟨a1, gmid, h5, ?_⟩
  have hfin : u'.g = u3.g := by rw [hu']; rfl
  rw [hfin]
  exact h6

/-- Witness for C3: applying exemplar `ν1` to copy owner `ν3` in `gC3`
allocates `ν6` and pushes the `Δ` and `σ` fields of `ν3` onto it. -/
theorem apply_structurality_witness :
    (6 : Nat) = uC3.g.nextId ∧ uC3.g.hasV 6 = false ∧
    ∀ a k, (a, k) ∈ uC3.g.kidsL 3 → (a == lPi) = false → (a == lPsi) = false →
    ∃ a1 gmid, tie 10 gmid 6 a = Res.ok a1 ∧
      (Universe.mk (Sodg.mk 7 [0, 1, 2, 3, 5, 6]
        [(1, "x", 2), (2, lRho, 1), (3, lPi, 1), (3, lDelta, 5), (3, lSigma, 0),
         (6, "x", 2), (6, lDelta, 5), (6, lSigma, 0)]
        [(5, [42])]) [] 1).g.kid 6 a1 = some k :=
  apply_structurality 10 uC3 1 3 _ 6 rfl


/- C6 (amended). -/

/-- One layer of the early bind when the label needs no back-edges. -/
theorem bindE_simple :
    ∀ (f : Nat) (u : EUni) (e1 v1 v2 : Nat) (a : String) (n2 : Nat)
      (es2 : List (Nat × EEdge)),
    (u.vtx v1).isNone = false →
    (u.vtx v2).isNone = false →
    (u.eedges.find? (fun p => p.1 == e1)).isSome = false →
    u.edgeL v1 a = none →
    ((a == lRho) = true ∨ (a == lSigmaIt) = true) →
    n2 = max u.enext (e1 + 1) →
    es2 = u.eedges ++ [(e1, EEdge.mk v1 v2 a)] →
    EUni.bindE (f + 1) u e1 v1 v2 a = Res.ok (EUni.mk n2 u.vertices es2) := by
  intro f u e1 v1 v2 a n2 es2 hv1 hv2 he1 hslot hlab hn hes
  have hcond : (a == lRho || a == lSigmaIt) = true := by
    rcases hlab with h | h <;> simp [h]
  simp only [EUni.bindE, hv1, hv2, he1, Bool.false_eq_true, if_false, hslot, hcond, if_true]
  rw [hn, hes]

/--
C6 (amended): a successful `bind(e1, v1, v2, a)` of the early store
(src/universe/i_bind.rs) adds the requested edge `v1 -a-> v2` and —
exactly when the label is neither `ρ` nor `𝜎` — also synthesises the
reciprocal back-edges `v2 -ρ-> v1` and `v2 -𝜎-> v1` when `v2` lacks
them; apart from these edges and the monotone id counter nothing else in
the store changes (the vertex table, data and `λ` attachments are
untouched).  When the label is `ρ` or `𝜎`, exactly the one requested
edge is added.
-/
theorem early_bind_effect :
    ∀ (f : Nat) (u : EUni) (e1 v1 v2 : Nat) (a : String),
    (u.vtx v1).isNone = false →
    (u.vtx v2).isNone = false →
    (u.eedges.find? (fun p => p.1 == e1)).isSome = false →
    u.edgeL v1 a = none →
    wfE u →
    ((a == lRho) = false → (a == lSigmaIt) = false →
      u.edgeL v2 lRho = none → u.edgeL v2 lSigmaIt = none →
      EUni.bindE (f + 2) u e1 v1 v2 a =
        Res.ok (EUni.mk (max u.enext (e1 + 1) + 2) u.vertices
          (u.eedges ++ [(e1, EEdge.mk v1 v2 a),
            (max u.enext (e1 + 1), EEdge.mk v2 v1 lRho),
            (max u.enext (e1 + 1) + 1, EEdge.mk v2 v1 lSigmaIt)]))) ∧
    (((a == lRho) = true ∨ (a == lSigmaIt) = true) →
      EUni.bindE (f + 1) u e1 v1 v2 a =
        Res.ok (EUni.mk (max u.enext (e1 + 1)) u.vertices
          (u.eedges ++ [(e1, EEdge.mk v1 v2 a)]))) := by
  intro f u e1 v1 v2 a hv1 hv2 he1 hslot hwf
  refine ⟨?_, fun hlab => bindE_simple f u e1 v1 v2 a _ _ hv1 hv2 he1 hslot hlab rfl rfl⟩
  intro hra hsa hrho hsig
  set M := max u.enext (e1 + 1) with hMdef
  have hrhoF : u.eedges.find? (fun p => p.2.src == v2 && p.2.lab == lRho) = none := by
    unfold EUni.edgeL at hrho
    exact Option.map_eq_none'.mp hrho
  have hsigF : u.eedges.find? (fun p => p.2.src == v2 && p.2.lab == lSigmaIt) = none := by
    unfold EUni.edgeL at hsig
    exact Option.map_eq_none'.mp hsig
  -- the ρ slot of v2 is still free after inserting the requested edge
  have hneed2 : EUni.edgeL (EUni.mk M u.vertices
      (u.eedges ++ [(e1, EEdge.mk v1 v2 a)])) v2 lRho = none := by
    unfold EUni.edgeL
    rw [findq_append, hrhoF]
    simp [List.find?_cons, hra]
  -- the new edge ids stay distinct from all used edge ids
  have hkey2 : ((u.eedges ++ [(e1, EEdge.mk v1 v2 a)]).find?
      (fun p => p.1 == M)).isSome = false := by
    have hnone : (u.eedges ++ [(e1, EEdge.mk v1 v2 a)]).find? (fun p => p.1 == M) = none := by
      rw [List.find?_eq_none]
      intro p hp
      rcases List.mem_append.mp hp with hin | hin
      · have := hwf.1 p hin
        have hlt : p.1 < M := lt_of_lt_of_le this (le_max_left _ _)
        simp [Nat.ne_of_lt hlt]
      · have hpe : p = (e1, EEdge.mk v1 v2 a) := by simpa using hin
        have hlt : e1 < M := lt_of_lt_of_le (Nat.lt_succ_self e1) (le_max_right _ _)
        rw [hpe]
        simp [Nat.ne_of_lt hlt]
    rw [hnone]; rfl
  have hstep1 : EUni.bindE (f + 1) (EUni.mk M u.vertices
        (u.eedges ++ [(e1, EEdge.mk v1 v2 a)])) M v2 v1 lRho =
      Res.ok (EUni.mk (M + 1) u.vertices
        (u.eedges ++ [(e1, EEdge.mk v1 v2 a), (M, EEdge.mk v2 v1 lRho)])) := by
    refine bindE_simple f _ M v2 v1 lRho (M + 1) _ hv2 hv1 hkey2 hneed2
      (Or.inl (by rfl)) ?_ ?_
    · show M + 1 = max M (M + 1)
      exact (Nat.max_eq_right (Nat.le_succ M)).symm
    · show u.eedges ++ [(e1, _), (M, _)] = (u.eedges ++ [(e1, _)]) ++ [(M, _)]
      rw [List.append_assoc]
      rfl
  -- the 𝜎 slot of v2 is still free after the two insertions
  have hneed3 : EUni.edgeL (EUni.mk (M + 1) u.vertices
      (u.eedges ++ [(e1, EEdge.mk v1 v2 a), (M, EEdge.mk v2 v1 lRho)])) v2 lSigmaIt = none := by
    unfold EUni.edgeL
    have : u.eedges ++ [(e1, EEdge.mk v1 v2 a), (M, EEdge.mk v2 v1 lRho)] =
        (u.eedges ++ [(e1, EEdge.mk v1 v2 a)]) ++ [(M, EEdge.mk v2 v1 lRho)] := by
      rw [List.append_assoc]; rfl
    rw [this, findq_append, findq_append, hsigF]
    have hls : (lRho == lSigmaIt) = false := rfl
    simp [List.find?_cons, hsa, hls]
  have hkey3 : ((u.eedges ++ [(e1, EEdge.mk v1 v2 a), (M, EEdge.mk v2 v1 lRho)]).find?
      (fun p => p.1 == M + 1)).isSome = false := by
    have hnone : (u.eedges ++ [(e1, EEdge.mk v1 v2 a), (M, EEdge.mk v2 v1 lRho)]).find?
        (fun p => p.1 == M + 1) = none := by
      rw [List.find?_eq_none]
      intro p hp
      rcases List.mem_append.mp hp with hin | hin
      · have := hwf.1 p hin
        have hlt : p.1 < M + 1 := lt_of_lt_of_le this (le_trans (le_max_left _ _) (Nat.le_succ M))
        simp [Nat.ne_of_lt hlt]
      · rcases List.mem_cons.mp hin with hpe | hin2
        · have hlt : e1 < M + 1 := lt_of_lt_of_le (Nat.lt_succ_self e1)
            (le_trans (le_max_right _ _) (Nat.le_succ M))
          rw [hpe]
          simp [Nat.ne_of_lt hlt]
        · have hpe : p = (M, EEdge.mk v2 v1 lRho) := by simpa using hin2
          rw [hpe]
          simp [Nat.ne_of_lt (Nat.lt_succ_self M)]
    rw [hnone]; rfl
  have hstep2 : EUni.bindE (f + 1) (EUni.mk (M + 1) u.vertices
        (u.eedges ++ [(e1, EEdge.mk v1 v2 a), (M, EEdge.mk v2 v1 lRho)])) (M + 1) v2 v1 lSigmaIt =
      Res.ok (EUni.mk (M + 2) u.vertices
        (u.eedges ++ [(e1, EEdge.mk v1 v2 a), (M, EEdge.mk v2 v1 lRho),
          (M + 1, EEdge.mk v2 v1 lSigmaIt)])) := by
    refine bindE_simple f _ (M + 1) v2 v1 lSigmaIt (M + 2) _ hv2 hv1 hkey3 hneed3
      (Or.inr (by rfl)) ?_ ?_
    · show M + 2 = max (M + 1) (M + 1 + 1)
      exact (Nat.max_eq_right (Nat.le_succ (M + 1))).symm
    · show u.eedges ++ [(e1, _), (M, _), (M + 1, _)] =
        (u.eedges ++ [(e1, _), (M, _)]) ++ [(M + 1, _)]
      rw [List.append_assoc]
      rfl
  have hcond : (a == lRho || a == lSigmaIt) = false := by simp [hra, hsa]
  show EUni.bindE (f + 1 + 1) u e1 v1 v2 a = _
  rw [EUni.bindE.eq_2]
  simp only [hv1, hv2, he1, Bool.false_eq_true, if_false, hslot, hcond, EUni.nextIdE]
  rw [← hMdef]
  rw [hneed2]
  simp only [Option.isNone_none, if_true]
  rw [hstep1]
  simp only [Res.bind_ok, EUni.nextIdE]
  rw [hneed3]
  simp only [Option.isNone_none, if_true]
  rw [hstep2]

/-- Witness for the amended C6: a user-labelled bind between two
vertices synthesises both back-edges. -/
theorem early_bind_effect_witness :
    EUni.bindE 3 euTwo 5 1 2 "foo" =
      Res.ok (EUni.mk (max euTwo.enext (5 + 1) + 2) euTwo.vertices
        (euTwo.eedges ++ [(5, EEdge.mk 1 2 "foo"),
          (max euTwo.enext (5 + 1), EEdge.mk 2 1 lRho),
          (max euTwo.enext (5 + 1) + 1, EEdge.mk 2 1 lSigmaIt)])) := by
  have hwf : wfE euTwo := by
    constructor
    · intro p hp
      exact absurd hp (List.not_mem_nil p)
    · intro p hp
      rcases List.mem_cons.mp hp with h | h
      · rw [h]; decide
      · rcases List.mem_cons.mp h with h2 | h2
        · rw [h2]; decide
        · exact absurd h2 (List.not_mem_nil p)
  exact (early_bind_effect 1 euTwo 5 1 2 "foo" rfl rfl rfl rfl hwf).1 rfl rfl rfl rfl

/- C5 amended: invariant preservation in the late engine. -/

theorem piPhiCount_congr {g g' : Sodg} (h : g'.edges = g.edges) (v : Nat) :
    piPhiCount g' v = piPhiCount g v := by
  unfold piPhiCount Sodg.kidsL
  rw [h]

theorem piPhiCount_rawBind_other {g : Sodg} {v1 v2 w : Nat} {a : String}
    (h : w ≠ v1) : piPhiCount (g.rawBind v1 v2 a) w = piPhiCount g w := by
  unfold piPhiCount Sodg.kidsL Sodg.rawBind
  simp only [List.filter_append, List.map_append, List.filter_append]
  have : List.filter (fun e => e.1 == w) [(v1, a, v2)] = [] := by
    simp [Ne.symm h]
  rw [this]
  simp

theorem alert_pair_nil {g : Sodg} {v1 v2 : Nat}
    (h : alertPiPhi g [v1, v2] = []) :
    piPhiCount g v1 ≤ 1 ∧ piPhiCount g v2 ≤ 1 := by
  unfold alertPiPhi at h
  by_cases h1 : 1 < piPhiCount g v1
  · simp [h1] at h
  · by_cases h2 : 1 < piPhiCount g v2
    · simp [h1, h2] at h
    · exact ⟨Nat.le_of_not_lt h1, Nat.le_of_not_lt h2⟩

/-- A successful checked bind preserves the π/φ invariant. -/
theorem bindG_inv {g : Sodg} {v1 v2 : Nat} {a : String} {g' : Sodg}
    (hi : InvG g) (h : g.bindG v1 v2 a = Res.ok g') : InvG g' := by
  obtain ⟨-, -, -, hg', halert⟩ := bindG_ok h
  intro w
  by_cases hw : w = v1
  · rw [hw]
    exact (alert_pair_nil halert).1
  · rw [hg', piPhiCount_rawBind_other hw]
    exact hi w

theorem addG_inv {g : Sodg} {v : Nat} {g' : Sodg}
    (hi : InvG g) (h : g.addG v = Res.ok g') : InvG g' := by
  obtain ⟨-, hg'⟩ := addG_ok h
  intro w
  rw [piPhiCount_congr (g := g) (by rw [hg'])]
  exact hi w

theorem putG_ok {g : Sodg} {v : Nat} {d : Bytes} {g' : Sodg}
    (h : g.putG v d = Res.ok g') :
    g' = { g with datas := g.datas.filter (fun p => !(p.1 == v)) ++ [(v, d)] } := by
  unfold Sodg.putG at h
  split at h
  · exact (Res.ok.inj h).symm
  · exact Res.noConfusion h

theorem putG_inv {g : Sodg} {v : Nat} {d : Bytes} {g' : Sodg}
    (hi : InvG g) (h : g.putG v d = Res.ok g') : InvG g' := by
  intro w
  rw [piPhiCount_congr (g := g) (by rw [putG_ok h])]
  exact hi w

theorem up_inv {u : Universe} {v1 v2 : Nat} {a : String} {u' : Universe}
    (hi : InvG u.g) (h : up u v1 v2 a = Res.ok u') : InvG u'.g := by
  unfold up at h
  split at h
  · obtain ⟨g', hb, hrest⟩ := Res.bind_eq_ok.mp h
    have := (Res.ok.inj hrest).symm
    subst this
    exact bindG_inv hi hb
  · obtain ⟨b, hn, hrest⟩ := Res.bind_eq_ok.mp h
    split at hrest
    · obtain ⟨g', hb, hrest2⟩ := Res.bind_eq_ok.mp hrest
      have := (Res.ok.inj hrest2).symm
      subst this
      exact bindG_inv hi hb
    · simp only at hrest
      obtain ⟨g1, h1, hrest2⟩ := Res.bind_eq_ok.mp hrest
      obtain ⟨g2, h2, hrest3⟩ := Res.bind_eq_ok.mp hrest2
      obtain ⟨g3, h3, hrest4⟩ := Res.bind_eq_ok.mp hrest3
      obtain ⟨g4, h4, hrest5⟩ := Res.bind_eq_ok.mp hrest4
      obtain ⟨g5, h5, hrest6⟩ := Res.bind_eq_ok.mp hrest5
      have := (Res.ok.inj hrest6).symm
      subst this
      exact bindG_inv (bindG_inv (bindG_inv (bindG_inv (addG_inv hi h1) h2) h3) h4) h5

theorem down_inv {f : Nat} {u : Universe} {v1 v2 : Nat} {a : String} {u' : Universe}
    (hi : InvG u.g) (h : down f u v1 v2 a = Res.ok u') : InvG u'.g := by
  unfold down at h
  obtain ⟨a1, -, hrest⟩ := Res.bind_eq_ok.mp h
  obtain ⟨g', hb, hrest2⟩ := Res.bind_eq_ok.mp hrest
  have := (Res.ok.inj hrest2).symm
  subst this
  exact bindG_inv hi hb

theorem pullList_inv {v1 : Nat} :
    ∀ (ks : List (String × Nat)) (u : Universe) (u' : Universe),
      InvG u.g → pullList u v1 ks = Res.ok u' → InvG u'.g := by
  intro ks
  induction ks with
  | nil =>
    intro u u' hi h
    have := (Res.ok.inj h).symm
    subst this
    exact hi
  | cons p rest ih =>
    intro u u' hi h
    rw [pullList] at h
    split at h
    · exact ih u u' hi h
    · obtain ⟨u1, hup, hrest⟩ := Res.bind_eq_ok.mp h
      exact ih u1 u' (up_inv hi hup) hrest

theorem pull_inv {u : Universe} {v1 v2 : Nat} {u' : Universe}
    (hi : InvG u.g) (h : pull u v1 v2 = Res.ok u') : InvG u'.g := by
  unfold pull at h
  obtain ⟨ks, -, hrest⟩ := Res.bind_eq_ok.mp h
  exact pullList_inv ks u u' hi hrest

theorem pushList_inv {f : Nat} {v1 : Nat} :
    ∀ (ks : List (String × Nat)) (u : Universe) (u' : Universe),
      InvG u.g → pushList f u v1 ks = Res.ok u' → InvG u'.g := by
  intro ks
  induction ks with
  | nil =>
    intro u u' hi h
    have := (Res.ok.inj h).symm
    subst this
    exact hi
  | cons p rest ih =>
    intro u u' hi h
    rw [pushList] at h
    split at h
    · exact ih u u' hi h
    · obtain ⟨u1, hdn, hrest⟩ := Res.bind_eq_ok.mp h
      exact ih u1 u' (down_inv hi hdn) hrest

theorem push_inv {f : Nat} {u : Universe} {v1 v2 : Nat} {u' : Universe}
    (hi : InvG u.g) (h : push f u v1 v2 = Res.ok u') : InvG u'.g := by
  unfold push at h
  obtain ⟨ks, -, hrest⟩ := Res.bind_eq_ok.mp h
  exact pushList_inv ks u u' hi hrest

theorem applyV_inv {f : Nat} {u : Universe} {v1 v2 : Nat} {u' : Universe} {nv : Nat}
    (hi : InvG u.g) (h : applyV f u v1 v2 = Res.ok (u', nv)) : InvG u'.g := by
  unfold applyV at h
  simp only at h
  obtain ⟨gA, hA, hrest⟩ := Res.bind_eq_ok.mp h
  obtain ⟨u2, hpl, hrest2⟩ := Res.bind_eq_ok.mp hrest
  obtain ⟨u3, hps, hrest3⟩ := Res.bind_eq_ok.mp hrest2
  have hu : exitIt u3 = u' := (Prod.mk.injEq _ _ _ _ ▸ Res.ok.inj hrest3).1
  rw [← hu, exitIt_g]
  have hi0 : InvG (enterIt u).g := hi
  exact push_inv (pull_inv (addG_inv hi0 hA) hpl) hps

theorem cluster_inv (ru : AtomOracle) (hru : RuPreserves ru) :
    ∀ f : Nat,
      (∀ u v a psi w r, InvG u.g → fnd ru f u v a psi = Res.ok (w, r) → InvG w.g) ∧
      (∀ u v a psi w r, InvG u.g → pf ru f u v a psi = Res.ok (w, r) → InvG w.g) ∧
      (∀ u v psi w r, InvG u.g → dd ru f u v psi = Res.ok (w, r) → InvG w.g) := by
  intro f
  induction f with
  | zero =>
    refine ⟨?_, ?_, ?_⟩
    · intro u v a psi w r _ h
      exact Res.noConfusion h
    · intro u v a psi w r _ h
      exact Res.noConfusion h
    · intro u v psi w r _ h
      exact Res.noConfusion h
  | succ f ih =>
    obtain ⟨ihFnd, ihPf, ihDd⟩ := ih
    refine ⟨?_, ?_, ?_⟩
    · -- fnd
      intro u v a psi w r hi h
      rw [fnd] at h
      obtain ⟨p, hdd, hrest⟩ := Res.bind_eq_ok.mp h
      obtain ⟨q, hpf, hrest2⟩ := Res.bind_eq_ok.mp hrest
      have hw : exitIt q.1 = w := (Prod.mk.injEq _ _ _ _ ▸ Res.ok.inj hrest2).1
      rw [← hw, exitIt_g]
      have hi0 : InvG (enterIt u).g := hi
      exact ihPf p.1 p.2 a psi q.1 q.2 (ihDd (enterIt u) v psi p.1 p.2 hi0 hdd) hpf
    · -- pf
      intro u v a psi w r hi h
      rw [pf] at h
      simp only at h
      have hi0 : InvG (enterIt u).g := hi
      split at h
      · -- direct edge
        have hw : exitIt (enterIt u) = w := (Prod.mk.injEq _ _ _ _ ▸ Res.ok.inj h).1
        rw [← hw, exitIt_g, enterIt_g]
        exact hi
      · split at h
        · -- λ atom
          obtain ⟨bs, -, hrest⟩ := Res.bind_eq_ok.mp h
          obtain ⟨lam, -, hrest2⟩ := Res.bind_eq_ok.mp hrest
          split at hrest2
          · obtain ⟨p, hatom, hrest3⟩ := Res.bind_eq_ok.mp hrest2
            obtain ⟨q, hf, hrest4⟩ := Res.bind_eq_ok.mp hrest3
            have hw : exitIt q.1 = w := (Prod.mk.injEq _ _ _ _ ▸ Res.ok.inj hrest4).1
            rw [← hw, exitIt_g]
            exact ihFnd p.1 p.2 a psi q.1 q.2 (hru lam (enterIt u) v p.1 p.2 hi0 hatom) hf
          · exact Res.noConfusion hrest2
        · split at h
          · -- φ fall-through
            obtain ⟨q, hf, hrest⟩ := Res.bind_eq_ok.mp h
            have hw : exitIt q.1 = w := (Prod.mk.injEq _ _ _ _ ▸ Res.ok.inj hrest).1
            rw [← hw, exitIt_g]
            exact ihFnd _ _ a psi q.1 q.2 hi0 hf
          · split at h
            · -- γ with memoisation
              obtain ⟨q, hf, hrest⟩ := Res.bind_eq_ok.mp h
              obtain ⟨g2, hb, hrest2⟩ := Res.bind_eq_ok.mp hrest
              have hw : exitIt { q.1 with g := g2 } = w :=
                (Prod.mk.injEq _ _ _ _ ▸ Res.ok.inj hrest2).1
              rw [← hw, exitIt_g]
              exact bindG_inv (ihFnd _ _ a psi q.1 q.2 hi0 hf) hb
            · exact Res.noConfusion h
    · -- dd
      intro u v psi w r hi h
      rw [dd] at h
      have hi0 : InvG (enterIt u).g := hi
      split at h
      · -- ε
        obtain ⟨q, hd, hrest⟩ := Res.bind_eq_ok.mp h
        have hw : exitIt q.1 = w := (Prod.mk.injEq _ _ _ _ ▸ Res.ok.inj hrest).1
        rw [← hw, exitIt_g]
        exact ihDd _ _ _ q.1 q.2 hi0 hd
      · split at h
        · -- ξ
          obtain ⟨q, hd, hrest⟩ := Res.bind_eq_ok.mp h
          have hw : exitIt q.1 = w := (Prod.mk.injEq _ _ _ _ ▸ Res.ok.inj hrest).1
          rw [← hw, exitIt_g]
          exact ihDd _ _ _ q.1 q.2 hi0 hd
        · split at h
          · -- β
            obtain ⟨ks, -, hrest⟩ := Res.bind_eq_ok.mp h
            split at hrest
            · exact Res.noConfusion hrest
            · obtain ⟨p, hf, hrest2⟩ := Res.bind_eq_ok.mp hrest
              obtain ⟨q, hd, hrest3⟩ := Res.bind_eq_ok.mp hrest2
              have hw : exitIt q.1 = w := (Prod.mk.injEq _ _ _ _ ▸ Res.ok.inj hrest3).1
              rw [← hw, exitIt_g]
              exact ihDd p.1 p.2 _ q.1 q.2 (ihFnd _ _ _ _ p.1 p.2 hi0 hf) hd
          · split at h
            · -- π: apply to exemplar
              obtain ⟨p, hd, hrest⟩ := Res.bind_eq_ok.mp h
              obtain ⟨q, happ, hrest2⟩ := Res.bind_eq_ok.mp hrest
              have hw : exitIt q.1 = w := (Prod.mk.injEq _ _ _ _ ▸ Res.ok.inj hrest2).1
              rw [← hw, exitIt_g]
              have hq : q = (q.1, q.2) := rfl
              rw [hq] at happ
              exact applyV_inv (ihDd _ _ _ p.1 p.2 hi0 hd) happ
            · -- plain vertex
              have hw : exitIt (enterIt u) = w := (Prod.mk.injEq _ _ _ _ ▸ Res.ok.inj h).1
              rw [← hw, exitIt_g, enterIt_g]
              exact hi

theorem sfind_inv (ru : AtomOracle) (hru : RuPreserves ru) (fF : Nat) :
    ∀ (ts : List Tok) (u : Universe) (v : Nat) (w : Universe) (r : Nat),
      InvG u.g → sfind ru fF u v ts = Res.ok (w, r) → InvG w.g := by
  intro ts
  induction ts with
  | nil =>
    intro u v w r hi h
    rw [sfind] at h
    have hw : u = w := (Prod.mk.injEq _ _ _ _ ▸ Res.ok.inj h).1
    rw [← hw]
    exact hi
  | cons t rest ih =>
    intro u v w r hi h
    cases t with
    | nu n =>
      rw [sfind] at h
      exact ih u n w r hi h
    | attr a =>
      rw [sfind] at h
      split at h
      · exact ih u v w r hi h
      · split at h
        · exact ih u _ w r hi h
        · obtain ⟨p, hm, hrest⟩ := Res.bind_eq_ok.mp h
          have hp : InvG p.1.g := by
            unfold mutRe at hm
            split at hm
            · have hpu : (u, 0) = p := Res.ok.inj hm
              rw [← hpu]
              exact hi
            · have hp2 : p = (p.1, p.2) := rfl
              rw [hp2] at hm
              exact (cluster_inv ru hru fF).1 u v a 0 p.1 p.2 hi hm
          exact ih p.1 p.2 w r hp hrest

theorem findU_inv (ru : AtomOracle) (hru : RuPreserves ru) (fF : Nat)
    (u : Universe) (loc : List Tok) (w : Universe) (r : Nat)
    (hi : InvG u.g) (h : findU ru fF u loc = Res.ok (w, r)) : InvG w.g := by
  unfold findU at h
  split at h
  · exact Res.noConfusion h
  · exact sfind_inv ru hru fF loc u 0 w r hi (Res.ctx_eq_ok.mp h)

theorem dataizeU_inv (ru : AtomOracle) (hru : RuPreserves ru) (fF : Nat)
    (u : Universe) (loc : List Tok) (w : Universe) (bs : Bytes)
    (hi : InvG u.g) (h : dataizeU ru fF u loc = Res.ok (w, bs)) : InvG w.g := by
  unfold dataizeU at h
  obtain ⟨p, hf, hrest⟩ := Res.bind_eq_ok.mp h
  obtain ⟨d, -, hrest2⟩ := Res.bind_eq_ok.mp hrest
  have hw : p.1 = w := (Prod.mk.injEq _ _ _ _ ▸ Res.ok.inj hrest2).1
  rw [← hw]
  have hp2 : p = (p.1, p.2) := rfl
  rw [hp2] at hf
  exact findU_inv ru hru fF u _ p.1 p.2 hi (Res.ctx_eq_ok.mp hf)

theorem bindG_refused {g : Sodg} {v1 v2 : Nat} {a : String}
    (hv : 1 < piPhiCount (g.rawBind v1 v2 a) v1) :
    (g.bindG v1 v2 a).isErr = true := by
  unfold Sodg.bindG
  split
  · rfl
  · split
    · rfl
    · split
      · rfl
      · have halert : (alertPiPhi (g.rawBind v1 v2 a) [v1, v2]).isEmpty = false := by
          unfold alertPiPhi
          simp [List.filterMap_cons, hv]
        simp only [halert, Bool.false_eq_true, if_false]
        rfl

theorem InvG_of_no_pi_phi {g : Sodg}
    (h : ∀ e ∈ g.edges, (e.2.1 == lPi) = false ∧ (e.2.1 == lPhi) = false) : InvG g := by
  intro v
  unfold piPhiCount Sodg.kidsL
  have hnil : List.filter (fun p => p.1 == lPi || p.1 == lPhi)
      (List.map (fun e => (e.2.1, e.2.2)) (List.filter (fun e => e.1 == v) g.edges)) = [] := by
    rw [List.filter_eq_nil_iff]
    intro p hp
    obtain ⟨e, he, hpe⟩ := List.mem_map.mp hp
    obtain ⟨h1, h2⟩ := h e (List.mem_filter.mp he).1
    rw [← hpe]
    simp [h1, h2]
  rw [hnil]
  simp

/--
C5 (amended): the sodg-backed engine built by `Universe::empty` installs
the π/φ alert, so every successful store mutation (`add`, `bind`, `put`)
preserves the invariant that no vertex has both `π` and `φ`; a bind that
would violate it is refused with an error and takes no effect; and the
engine entry points `find` and `dataize` (for any atom oracle that itself
respects the invariant) preserve it end to end.
-/
theorem late_engine_preserves_pi_phi :
    (∀ (g : Sodg) (v : Nat) (g2 : Sodg), InvG g → g.addG v = Res.ok g2 → InvG g2) ∧
    (∀ (g : Sodg) (v1 v2 : Nat) (a : String) (g2 : Sodg),
        InvG g → g.bindG v1 v2 a = Res.ok g2 → InvG g2) ∧
    (∀ (g : Sodg) (v : Nat) (d : Bytes) (g2 : Sodg),
        InvG g → g.putG v d = Res.ok g2 → InvG g2) ∧
    (∀ (g : Sodg) (v1 v2 : Nat) (a : String),
        1 < piPhiCount (g.rawBind v1 v2 a) v1 → (g.bindG v1 v2 a).isErr = true) ∧
    (∀ (ru : AtomOracle), RuPreserves ru → ∀ fF u loc w r,
        InvG u.g → findU ru fF u loc = Res.ok (w, r) → InvG w.g) ∧
    (∀ (ru : AtomOracle), RuPreserves ru → ∀ fF u loc w bs,
        InvG u.g → dataizeU ru fF u loc = Res.ok (w, bs) → InvG w.g) := by
  refine ⟨?_, ?_, ?_, ?_, ?_, ?_⟩
  · intro g v g2 hi h
    exact addG_inv hi h
  · intro g v1 v2 a g2 hi h
    exact bindG_inv hi h
  · intro g v d g2 hi h
    exact putG_inv hi h
  · intro g v1 v2 a hv
    exact bindG_refused hv
  · intro ru hru fF u loc w r hi h
    exact findU_inv ru hru fF u loc w r hi h
  · intro ru hru fF u loc w bs hi h
    exact dataizeU_inv ru hru fF u loc w bs hi h

theorem late_engine_preserves_pi_phi_witness :
    1 < piPhiCount ((Sodg.mk 3 [1, 2] [(1, lPi, 2)] []).rawBind 1 2 lPhi) 1 ∧
    ((Sodg.mk 3 [1, 2] [(1, lPi, 2)] []).bindG 1 2 lPhi).isErr = true ∧
    dataizeU ruD 50 uS1 locFoo = Res.ok (uS1, [255, 255]) ∧
    InvG uS1.g := by
  refine ⟨by decide, ?_, ?_, ?_⟩
  · exact late_engine_preserves_pi_phi.2.2.2.1 (Sodg.mk 3 [1, 2] [(1, lPi, 2)] []) 1 2 lPhi (by decide)
  · rfl
  · exact late_engine_preserves_pi_phi.2.2.2.2.2 ruD
      (fun s u v w r hiu hb => Res.noConfusion hb) 50 uS1 locFoo uS1 [255, 255]
      (InvG_of_no_pi_phi (by decide)) (by rfl)
